import Mathlib

/-!
Verification of the QUIC connection engine in `src/event/ngx_event_quic.c`
against its natural-language specification.  The definitions below are a
shallow embedding of the relevant C functions: machine integers (`uint64_t`)
become `Nat` with explicit `% 2 ^ 64` where wrap-around matters, intrusive
queues become `List`, and fallible paths return explicit outcome types.
Constants that live in the (absent) header `ngx_event_quic.h` are taken from
the specification and marked as such.
-/

namespace NgxQuic

/-- Sentinel value `NGX_QUIC_UNSET_PN`, defined as `(uint64_t) -1` in the
source (line 39). -/
def NGX_QUIC_UNSET_PN : ℕ := 2 ^ 64 - 1

/-- Constant `NGX_QUIC_MIN_PKT_LEN` (line 46). -/
def NGX_QUIC_MIN_PKT_LEN : ℕ := 21

/-- Constant `NGX_QUIC_MIN_SR_PACKET` (line 48). -/
def NGX_QUIC_MIN_SR_PACKET : ℕ := 43

/-- Constant `NGX_QUIC_MAX_SR_PACKET` (line 49). -/
def NGX_QUIC_MAX_SR_PACKET : ℕ := 1200

/-- Modelled from the spec: `NGX_QUIC_SR_TOKEN_LEN`, the stateless-reset
token length, lives in the missing header; the spec fixes it to 16 bytes. -/
def NGX_QUIC_SR_TOKEN_LEN : ℕ := 16

/-- Constant `NGX_QUIC_MAX_ACK_GAP` (line 51). -/
def NGX_QUIC_MAX_ACK_GAP : ℕ := 2

/-- Constant `NGX_QUIC_MAX_BUFFERED` (line 35). -/
def NGX_QUIC_MAX_BUFFERED : ℕ := 65535

/-! ### Packet-number truncation (`ngx_quic_set_packet_number`, lines 4637-4664) -/

/-- Fields of `ngx_quic_header_t` written by `ngx_quic_set_packet_number`. -/
structure PktNum where
  flags : ℕ
  num_len : ℕ
  trunc : ℕ
  number : ℕ
  deriving Repr, DecidableEq

/-- Value `delta = ctx->pnum - ctx->largest_ack` computed in `uint64_t`
arithmetic (line 4642); both operands are `uint64_t` values. -/
def pn_delta (pnum largest_ack : ℕ) : ℕ :=
  (pnum + 2 ^ 64 - largest_ack) % 2 ^ 64

/-- Shallow embedding of `ngx_quic_set_packet_number` (lines 4637-4664).
`pnum` is `ctx->pnum` and `largest_ack` is `ctx->largest_ack`; the unset
`largest_ack` is the sentinel `NGX_QUIC_UNSET_PN`.  `flags` is the value of
`pkt->flags` before the call; the function or-s the PN-length bits into
it. -/
def set_packet_number (flags pnum largest_ack : ℕ) : PktNum :=
  if pn_delta pnum largest_ack ≤ 0x7F then
    { flags := flags, num_len := 1, trunc := pnum % 2 ^ 8, number := pnum }
  else if pn_delta pnum largest_ack ≤ 0x7FFF then
    { flags := flags ||| 0x1, num_len := 2, trunc := pnum % 2 ^ 16, number := pnum }
  else if pn_delta pnum largest_ack ≤ 0x7FFFFF then
    { flags := flags ||| 0x2, num_len := 3, trunc := pnum % 2 ^ 24, number := pnum }
  else
    { flags := flags ||| 0x3, num_len := 4, trunc := pnum % 2 ^ 32, number := pnum }

/-- Formula claimed by the spec for the truncated PN length:
`max(1, ceil(log2(delta+1)/8))` bytes. -/
def claimed_pn_len (delta : ℕ) : ℕ :=
  max 1 ((Nat.clog 2 (delta + 1) + 7) / 8)

/-- Length of the stateless-reset datagram chosen by
`ngx_quic_send_stateless_reset` (lines 1074-1094).  `sr_token_key_len` is
`conf->sr_token_key.len`, `pktLen` is `pkt->len` (the length of the received
packet) and `rnd` is the random 16-bit value `rndbytes`; `none` means the
function declines without sending. -/
def sr_packet_len (sr_token_key_len pktLen rnd : ℕ) : Option ℕ :=
  if sr_token_key_len = 0 then none
  else if pktLen ≤ NGX_QUIC_MIN_PKT_LEN then none
  else if pktLen ≤ NGX_QUIC_MIN_SR_PACKET then some (pktLen - 1)
  else
    let mx := min NGX_QUIC_MAX_SR_PACKET (pktLen * 3)
    some (rnd % 2 ^ 16 % (mx - NGX_QUIC_MIN_SR_PACKET + 1) + NGX_QUIC_MIN_SR_PACKET)

/-- First byte of the reset datagram: `buf[0] &= ~NGX_QUIC_PKT_LONG` and
`buf[0] |= NGX_QUIC_PKT_FIXED_BIT` (lines 1100-1101), where
`NGX_QUIC_PKT_LONG = 0x80` and `NGX_QUIC_PKT_FIXED_BIT = 0x40`. -/
def sr_first_byte (b : ℕ) : ℕ := (b &&& 0x7F) ||| 0x40

/-- Datagram assembled by `ngx_quic_send_stateless_reset` (lines 1096-1111):
`len - NGX_QUIC_SR_TOKEN_LEN` random bytes (with the first byte masked),
then the 16-byte reset token derived by `ngx_quic_new_sr_token` from the
received DCID under the local key.  `rand` supplies the random bytes and
`token` is the PRF output (an external primitive, passed abstractly). -/
def sr_datagram (len : ℕ) (rand token : List ℕ) : List ℕ :=
  match rand.take (len - NGX_QUIC_SR_TOKEN_LEN) with
  | [] => token
  | b :: rest => (sr_first_byte b :: rest) ++ token

/-- State `ngx_quic_congestion_t` (lines 79-84). -/
structure Congestion where
  in_flight : ℕ
  window : ℕ
  ssthresh : ℕ
  recovery_start : ℕ
  deriving Repr, DecidableEq

/-- Frame fields read by the congestion functions: `f->plen` (bytes of the
carrying packet) and `f->last` (msec when sent). -/
structure CgFrame where
  plen : ℕ
  last : ℕ
  deriving Repr, DecidableEq

/-- Shallow embedding of `ngx_quic_congestion_ack` (lines 5704-5752).
`mtu` is `qc->tp.max_udp_payload_size`, `idle` is `qc->tp.max_idle_timeout`
and `now` is `ngx_current_msec`; the signed comparison
`(ngx_msec_int_t) (f->last - cg->recovery_start) <= 0` is modelled on
non-wrapping msec values as `f.last ≤ recovery_start`. -/
def congestion_ack (mtu idle now : ℕ) (cg : Congestion) (f : CgFrame) :
    Congestion :=
  if f.plen = 0 then cg
  else
    let cg1 := { cg with in_flight := cg.in_flight - f.plen }
    if f.last ≤ cg1.recovery_start then cg1
    else
      let cg2 :=
        if cg1.window < cg1.ssthresh then
          { cg1 with window := cg1.window + f.plen }
        else
          { cg1 with window := cg1.window + mtu * f.plen / cg1.window }
      if cg2.recovery_start + idle * 2 < now then
        { cg2 with recovery_start := now - idle * 2 }
      else cg2

/-- Shallow embedding of `ngx_quic_congestion_lost` (lines 5755-5794).  The
assignment `f->plen = 0` only affects the frame record and is handled by
the callers of this model. -/
def congestion_lost (mtu now : ℕ) (cg : Congestion) (f : CgFrame) :
    Congestion :=
  if f.plen = 0 then cg
  else
    let cg1 := { cg with in_flight := cg.in_flight - f.plen }
    if f.last ≤ cg1.recovery_start then cg1
    else
      let cg2 := { cg1 with recovery_start := now, window := cg1.window / 2 }
      let cg3 :=
        if cg2.window < mtu * 2 then { cg2 with window := mtu * 2 } else cg2
      { cg3 with ssthresh := cg3.window }

/-- Event applied to the congestion state: an ack or a loss of a sent
frame, observed at time `now`. -/
inductive CgEvent where
  | ack (plen last now : ℕ)
  | lost (plen last now : ℕ)
  deriving Repr, DecidableEq

/-- One congestion-controller update. -/
def cg_step (mtu idle : ℕ) (cg : Congestion) : CgEvent → Congestion
  | .ack plen last now => congestion_ack mtu idle now cg ⟨plen, last⟩
  | .lost plen last now => congestion_lost mtu now cg ⟨plen, last⟩

/-- Modelled from the spec: stream-ID bit `NGX_QUIC_STREAM_SERVER_INITIATED`
(bit 0: 0 client / 1 server), defined in the missing header. -/
def NGX_QUIC_STREAM_SERVER_INITIATED : ℕ := 0x1

/-- Modelled from the spec: stream-ID bit `NGX_QUIC_STREAM_UNIDIRECTIONAL`
(bit 1: 0 bidi / 1 uni), defined in the missing header. -/
def NGX_QUIC_STREAM_UNIDIRECTIONAL : ℕ := 0x2

/-- Modelled from the spec: transport error codes (spec section 6), defined
in the missing header. -/
def NGX_QUIC_ERR_STREAM_LIMIT_ERROR : ℕ := 0x4

/-- Modelled from the spec: `STREAM_STATE_ERROR` transport error code. -/
def NGX_QUIC_ERR_STREAM_STATE_ERROR : ℕ := 0x5

/-- Modelled from the spec: `FRAME_ENCODING_ERROR` transport error code. -/
def NGX_QUIC_ERR_FRAME_ENCODING_ERROR : ℕ := 0x7

/-- Modelled from the spec: `CONNECTION_ID_LIMIT_ERROR` transport error
code. -/
def NGX_QUIC_ERR_CONNECTION_ID_LIMIT_ERROR : ℕ := 0x9

/-- Modelled from the spec: `PROTOCOL_VIOLATION` transport error code. -/
def NGX_QUIC_ERR_PROTOCOL_VIOLATION : ℕ := 0xA

/-- Modelled from the spec: `CRYPTO_BUFFER_EXCEEDED` transport error
code. -/
def NGX_QUIC_ERR_CRYPTO_BUFFER_EXCEEDED : ℕ := 0xD

/-- Counter and limit fields of `ngx_quic_streams_t` (lines 59-77). -/
structure StreamCounts where
  server_max_streams_uni : ℕ
  server_max_streams_bidi : ℕ
  server_streams_uni : ℕ
  server_streams_bidi : ℕ
  client_max_streams_uni : ℕ
  client_max_streams_bidi : ℕ
  client_streams_uni : ℕ
  client_streams_bidi : ℕ
  send_max_data : ℕ
  sent : ℕ
  deriving Repr, DecidableEq

/-- Per-stream fields used by the MAX_STREAM_DATA handler: `sn->send_max_data`
and `sn->c->sent`. -/
structure StreamSn where
  send_max_data : ℕ
  sent : ℕ
  deriving Repr, DecidableEq

/-- Stream IDs visited by the creation loop of `ngx_quic_create_client_stream`
(line 5122): `for ( ; min_id < id; min_id += 0x04)`. -/
def stream_loop_ids (min_id id : ℕ) : List ℕ :=
  if h : min_id < id then min_id :: stream_loop_ids (min_id + 4) id else []
termination_by id - min_id
decreasing_by omega

/-- Result of `ngx_quic_create_client_stream`: `NGX_QUIC_STREAM_GONE`, a
failure with the error code stored into `qc->error`, or success carrying
the updated counters and the IDs of every stream created (in creation
order; the last one is the requested stream). -/
inductive CreateStreamResult where
  | gone
  | fail (err : ℕ)
  | created (st : StreamCounts) (ids : List ℕ)
  deriving Repr, DecidableEq

/-- Shallow embedding of `ngx_quic_create_client_stream` (lines 5046-5133).
Allocation failures inside `ngx_quic_create_stream` are not modelled. -/
def create_client_stream (st : StreamCounts) (id : ℕ) : CreateStreamResult :=
  if id % 4 / 2 = 1 then
    if id % 2 = 1 then
      if id / 4 < st.server_streams_uni then .gone
      else .fail NGX_QUIC_ERR_STREAM_STATE_ERROR
    else if id / 4 < st.client_streams_uni then .gone
    else if st.client_max_streams_uni ≤ id / 4 then
      .fail NGX_QUIC_ERR_STREAM_LIMIT_ERROR
    else
      let min_id := st.client_streams_uni * 4 + NGX_QUIC_STREAM_UNIDIRECTIONAL
      .created { st with client_streams_uni := id / 4 + 1 }
        (stream_loop_ids min_id id ++ [id])
  else
    if id % 2 = 1 then
      if id / 4 < st.server_streams_bidi then .gone
      else .fail NGX_QUIC_ERR_STREAM_STATE_ERROR
    else if id / 4 < st.client_streams_bidi then .gone
    else if st.client_max_streams_bidi ≤ id / 4 then
      .fail NGX_QUIC_ERR_STREAM_LIMIT_ERROR
    else
      let min_id := st.client_streams_bidi * 4
      .created { st with client_streams_bidi := id / 4 + 1 }
        (stream_loop_ids min_id id ++ [id])

/-- Shallow embedding of `ngx_quic_handle_max_data_frame` (lines 3781-3817);
the only state change is to `qc->streams.send_max_data` (the loop in the
body only posts write events), and the handler always returns `NGX_OK`. -/
def handle_max_data_frame (st : StreamCounts) (max_data : ℕ) : StreamCounts :=
  if max_data ≤ st.send_max_data then st
  else { st with send_max_data := max_data }

/-- Shallow embedding of `ngx_quic_handle_max_streams_frame`
(lines 4055-4081); always returns `NGX_OK`. -/
def handle_max_streams_frame (st : StreamCounts) (bidi : Bool) (limit : ℕ) :
    StreamCounts :=
  if bidi then
    if st.server_max_streams_bidi < limit then
      { st with server_max_streams_bidi := limit }
    else st
  else
    if st.server_max_streams_uni < limit then
      { st with server_max_streams_uni := limit }
    else st

/-- Shallow embedding of the existing-stream path of
`ngx_quic_handle_max_stream_data_frame` (lines 3886-3944): the early
uni-and-not-server-initiated check, and then, when `ngx_quic_find_stream`
finds the stream, the update of `sn->send_max_data` (write events are
I/O-side only). -/
def handle_max_stream_data_existing (sn : StreamSn) (id limit : ℕ) :
    Except ℕ StreamSn :=
  if id % 4 / 2 = 1 ∧ id % 2 = 0 then
    .error NGX_QUIC_ERR_STREAM_STATE_ERROR
  else if limit ≤ sn.send_max_data then .ok sn
  else .ok { sn with send_max_data := limit }

/-- Offset and length of an ordered frame (`ngx_quic_ordered_frame_t`); the
payload bytes themselves are consumed by the external handler and are not
part of the reassembly bookkeeping modelled here. -/
structure OrdFrame where
  offset : ℕ
  length : ℕ
  deriving Repr, DecidableEq

/-- State `ngx_quic_frames_stream_t`: contiguous `received` position, the
`total` count of buffered bytes, and the queue of buffered frames. -/
structure FramesStream where
  received : ℕ
  total : ℕ
  frames : List OrdFrame
  deriving Repr, DecidableEq

/-- Result of an ordered-frame input handler such as
`ngx_quic_crypto_input`: `NGX_OK`, `NGX_DONE` (stream destroyed) or
`NGX_ERROR`. -/
inductive HandlerRes where
  | ok
  | done
  | error
  deriving Repr, DecidableEq

/-- Return value of `ngx_quic_handle_ordered_frame`. -/
inductive OrdResult where
  | ok
  | declined
  | error
  deriving Repr, DecidableEq

/-- Shallow embedding of `ngx_quic_adjust_frame_offset` (lines 3417-3446):
`none` is the `NGX_DONE` old/duplicate result, otherwise the frame is
trimmed so that its offset becomes `offset_in`. -/
def adjust_frame_offset (f : OrdFrame) (offset_in : ℕ) : Option OrdFrame :=
  let tail := offset_in - f.offset
  if f.length ≤ tail then none
  else some { offset := f.offset + tail, length := f.length - tail }

/-- Backward walk of `ngx_quic_buffer_frame` (lines 3490-3503) on the
reversed queue: the new frame is inserted after the last queue entry whose
offset is below the new offset, and at the head if there is none. -/
def insert_rev (f : OrdFrame) : List OrdFrame → List OrdFrame
  | [] => [f]
  | x :: xs => if x.offset < f.offset then f :: x :: xs else x :: insert_rev f xs

/-- Queue produced by `ngx_quic_buffer_frame`: the backward walk expressed
on the queue in its natural order. -/
def buffer_insert (q : List OrdFrame) (f : OrdFrame) : List OrdFrame :=
  (insert_rev f q.reverse).reverse

/-- Shallow embedding of `ngx_quic_buffer_frame` (lines 3449-3506);
allocation failures are not modelled. -/
def buffer_frame (fs : FramesStream) (f : OrdFrame) : FramesStream :=
  { fs with total := fs.total + f.length,
            frames := buffer_insert fs.frames f }

/-- Consumption loop of `ngx_quic_handle_ordered_frame` (lines 3354-3411):
after in-order data advanced `received`, buffered frames at the head of the
queue are adjusted, fed to the handler and removed while contiguous.
Returns the result together with the updated `received`, `total` and
queue.  `full_len` is captured before the adjustment, exactly as in the
source. -/
def consume_buffered (handler : OrdFrame → HandlerRes) :
    List OrdFrame → ℕ → ℕ → OrdResult × ℕ × ℕ × List OrdFrame
  | [], received, total => (.ok, received, total, [])
  | g :: rest, received, total =>
    if received < g.offset then (.ok, received, total, g :: rest)
    else
      let full_len := g.length
      if g.offset < received then
        match adjust_frame_offset g received with
        | none => consume_buffered handler rest received (total - g.length)
        | some g1 =>
          match handler g1 with
          | .error => (.error, received, total, g1 :: rest)
          | .done => (.ok, received, total, g1 :: rest)
          | .ok => consume_buffered handler rest (received + g1.length)
              (total - full_len)
      else
        match handler g with
        | .error => (.error, received, total, g :: rest)
        | .done => (.ok, received, total, g :: rest)
        | .ok => consume_buffered handler rest (received + g.length)
            (total - full_len)

/-- Shallow embedding of `ngx_quic_handle_ordered_frame` (lines 3306-3414).
`crypto` tells whether the handler is `ngx_quic_crypto_input` (the
old/duplicate result is `NGX_DECLINED` for CRYPTO, `NGX_OK` for STREAM). -/
def handle_ordered_frame (handler : OrdFrame → HandlerRes) (crypto : Bool)
    (fs : FramesStream) (f : OrdFrame) : OrdResult × FramesStream :=
  if fs.received < f.offset then
    (.ok, buffer_frame fs f)
  else
    let fr := if f.offset < fs.received then adjust_frame_offset f fs.received
      else some f
    match fr with
    | none => (if crypto then .declined else .ok, fs)
    | some f1 =>
      match handler f1 with
      | .error => (.error, fs)
      | .done => (.ok, fs)
      | .ok =>
        match consume_buffered handler fs.frames (fs.received + f1.length)
            fs.total with
        | (r, rec2, tot2, q2) =>
          (r, { received := rec2, total := tot2, frames := q2 })

/-- Outcome of `ngx_quic_handle_crypto_frame`. -/
inductive CryptoOut where
  | bufferExceeded
  | handlerError (fs : FramesStream)
  | ok (fs : FramesStream)
  deriving Repr, DecidableEq

/-- Shallow embedding of `ngx_quic_handle_crypto_frame` (lines 3509-3549).
The `NGX_DECLINED` fast path (resending Initial frames) does not touch the
reassembly state.  `bufferExceeded` is the `NGX_ERROR` return that sets
`qc->error = NGX_QUIC_ERR_CRYPTO_BUFFER_EXCEEDED`. -/
def handle_crypto_frame (handler : OrdFrame → HandlerRes)
    (fs : FramesStream) (f : OrdFrame) : CryptoOut :=
  let last := f.offset + f.length
  if fs.received < last ∧ NGX_QUIC_MAX_BUFFERED < last - fs.received then
    .bufferExceeded
  else
    match handle_ordered_frame handler true fs f with
    | (.error, fs1) => .handlerError fs1
    | (.declined, fs1) => .ok fs1
    | (.ok, fs1) => .ok fs1

/-- Queue offsets are in non-decreasing order. -/
def offsetsSorted (q : List OrdFrame) : Prop :=
  q.Pairwise (fun a b => a.offset ≤ b.offset)

/-- Entry `ngx_quic_client_id_t`: sequence number, CID bytes (exactly
`len` of them) and the 16-byte stateless-reset token. -/
structure ClientId where
  seqnum : ℕ
  len : ℕ
  id : List ℕ
  sr_token : List ℕ
  deriving Repr, DecidableEq

/-- Fields of `ngx_quic_new_conn_id_frame_t` used by the handler. -/
structure NewConnIdFrame where
  seqnum : ℕ
  retire : ℕ
  len : ℕ
  cid : List ℕ
  srt : List ℕ
  deriving Repr, DecidableEq

/-- Connection state touched by the NEW_CONNECTION_ID handler:
`qc->client_ids` (with `nclient_ids` as its length), `max_retired_seqnum`,
`curr_seqnum`, the outbound `scid`, and the two `active_connection_id_limit`
transport parameters — the local one (`qc->tp`, advertised to the peer) and
the peer one (`qc->ctp`). -/
structure CidState where
  client_ids : List ClientId
  max_retired_seqnum : ℕ
  curr_seqnum : ℕ
  scid : List ℕ
  tp_active_connection_id_limit : ℕ
  ctp_active_connection_id_limit : ℕ
  deriving Repr, DecidableEq

/-- Retire section of `ngx_quic_handle_new_connection_id_frame`
(labels `retire:` and `done:`, lines 4190-4243): ignore non-increasing
`retire_prior_to` values, otherwise retire and remove every entry with a
lower sequence number, then fail with `CONNECTION_ID_LIMIT_ERROR` when the
active count exceeds the local `active_connection_id_limit`.  `retired`
carries the sequence numbers already queued in RETIRE_CONNECTION_ID frames;
the result is the mutated state, all queued retirements, and the error
code (`none` = `NGX_OK`). -/
def cid_retire_phase (st : CidState) (retired : List ℕ) (f : NewConnIdFrame) :
    CidState × List ℕ × Option ℕ :=
  let step :=
    if st.max_retired_seqnum ≠ 0 ∧ f.retire ≤ st.max_retired_seqnum then
      (st, retired)
    else
      let st1 := { st with max_retired_seqnum := f.retire }
      ({ st1 with
          client_ids := st1.client_ids.filter (fun c => ¬ c.seqnum < f.retire) },
        retired ++
          (st1.client_ids.filter (fun c => c.seqnum < f.retire)).map (·.seqnum))
  if step.1.tp_active_connection_id_limit < step.1.client_ids.length then
    (step.1, step.2, some NGX_QUIC_ERR_CONNECTION_ID_LIMIT_ERROR)
  else (step.1, step.2, none)

/-- Shallow embedding of `ngx_quic_handle_new_connection_id_frame`
(lines 4105-4244).  Allocation failures are not modelled; the CID bytes of
an entry are exactly its `len` bytes, so the `ngx_strncmp` payload
comparisons become list equalities. -/
def handle_new_connection_id_frame (st : CidState) (f : NewConnIdFrame) :
    CidState × List ℕ × Option ℕ :=
  if f.seqnum < st.max_retired_seqnum then
    cid_retire_phase st [f.seqnum] f
  else
    match st.client_ids.find? (fun c => c.seqnum = f.seqnum) with
    | some c =>
      if c.len ≠ f.len ∨ c.id ≠ f.cid ∨ c.sr_token ≠ f.srt then
        (st, [], some NGX_QUIC_ERR_PROTOCOL_VIOLATION)
      else cid_retire_phase st [] f
    | none =>
      let st1 := { st with
        client_ids := st.client_ids ++ [⟨f.seqnum, f.len, f.cid, f.srt⟩] }
      let st2 := if st1.curr_seqnum < f.seqnum then
          { st1 with scid := f.cid, curr_seqnum := f.seqnum }
        else st1
      cid_retire_phase st2 [] f

/-- Modelled from the spec: frame type `NGX_QUIC_FT_ACK` (0x02), defined in
the missing header; the spec fixes frame types 0x00..0x1e as in the wire
protocol. -/
def NGX_QUIC_FT_ACK : ℕ := 0x02

/-- Kind of a sent frame, as far as `ngx_quic_handle_ack_frame_range`
dispatches on `f->type`: an ACK / ACK_ECN frame carrying `u.ack.largest`, a
STREAM frame carrying `u.stream.stream_id` and `u.stream.length`, or any
other type. -/
inductive SentKind where
  | ackKind (largest : ℕ)
  | streamKind (stream_id length : ℕ)
  | otherKind
  deriving Repr, DecidableEq

/-- Entry of the `ctx->sent` queue, with the fields the ACK-range handler
reads. -/
structure SentFrame where
  pnum : ℕ
  plen : ℕ
  last : ℕ
  kind : SentKind
  deriving Repr, DecidableEq

/-- Walk of `ngx_quic_drop_ack_ranges` over `ctx->ranges`
(lines 2867-2882), given the smallest PN of the previous block; returns the
truncated range table. -/
def drop_ranges_walk (pn : ℕ) : ℕ → List (ℕ × ℕ) → List (ℕ × ℕ)
  | _, [] => []
  | smallest, (g, r) :: rest =>
    let largest1 := smallest - g - 2
    let smallest1 := largest1 - r
    if largest1 ≤ pn then []
    else if smallest1 ≤ pn then [(g, largest1 - pn - 1)]
    else (g, r) :: drop_ranges_walk pn smallest1 rest

/-- ACK-accumulator fields of `ngx_quic_send_ctx_t` read and written by
`ngx_quic_drop_ack_ranges` and `ngx_quic_ack_packet`: `largest_range`
(`none` = `NGX_QUIC_UNSET_PN`), `first_range`, the gap/range table and
`pending_ack`. -/
structure AckRanges where
  largest : Option ℕ
  first : ℕ
  ranges : List (ℕ × ℕ)
  pending : Option ℕ
  deriving Repr, DecidableEq

/-- Shallow embedding of `ngx_quic_drop_ack_ranges` (lines 2828-2883). -/
def drop_ack_ranges (a : AckRanges) (pn : ℕ) : AckRanges :=
  match a.largest with
  | none => a
  | some base =>
    let pending := match a.pending with
      | some p => if p ≤ pn then none else some p
      | none => none
    if base ≤ pn then { largest := none, first := 0, ranges := [], pending := pending }
    else if base - a.first ≤ pn then
      { largest := some base, first := base - pn - 1, ranges := [], pending := pending }
    else
      { largest := some base, first := a.first,
        ranges := drop_ranges_walk pn (base - a.first) a.ranges,
        pending := pending }

/-- Shallow embedding of `ngx_quic_handle_stream_ack` (lines 3274-3303):
`sn->acked += f->u.stream.length` when the stream exists (write-event
wakeups are I/O side effects). -/
def handle_stream_ack (streams : List (ℕ × ℕ)) (sid len : ℕ) :
    List (ℕ × ℕ) :=
  streams.map (fun s => if s.1 = sid then (s.1, s.2 + len) else s)

/-- Accumulator of the backward walk over `ctx->sent` in
`ngx_quic_handle_ack_frame_range` (lines 3134-3171). -/
structure ArlAcc where
  cg : Congestion
  streams : List (ℕ × ℕ)
  acks : AckRanges
  found : Bool
  found_num : ℕ
  send_time : Option ℕ
  kept : List SentFrame
  deriving Repr, DecidableEq

/-- One iteration of the backward walk: a frame with `pnum` in
`[mn, mx]` is congestion-acked, dispatched on its type, recorded for the
send-time output and removed; others are kept. -/
def arl_step (mtu idle now mn mx : ℕ) (acc : ArlAcc) (f : SentFrame) :
    ArlAcc :=
  if mn ≤ f.pnum ∧ f.pnum ≤ mx then
    let acc1 := { acc with cg := congestion_ack mtu idle now acc.cg ⟨f.plen, f.last⟩ }
    let acc2 := match f.kind with
      | .ackKind l => { acc1 with acks := drop_ack_ranges acc1.acks l }
      | .streamKind sid len =>
          { acc1 with streams := handle_stream_ack acc1.streams sid len }
      | .otherKind => acc1
    let acc3 := if acc2.found_num < f.pnum ∨ acc2.found = false then
        { acc2 with send_time := some f.last, found_num := f.pnum }
      else acc2
    { acc3 with found := true }
  else { acc with kept := f :: acc.kept }

/-- Connection and send-context state touched by
`ngx_quic_handle_ack_frame_range`: the sent queue, `ctx->pnum`, the ACK
accumulator, congestion state, per-stream `acked` counters and
`qc->pto_count`. -/
structure AckRecvState where
  sent : List SentFrame
  pnum : ℕ
  acks : AckRanges
  cg : Congestion
  streams : List (ℕ × ℕ)
  pto_count : ℕ
  deriving Repr, DecidableEq

/-- Shallow embedding of `ngx_quic_handle_ack_frame_range`
(lines 3118-3197).  The result carries the new state, the error slot
written on failure (`qc->error` paired with `qc->error_ftype`) and the
`*send_time` output (`none` = `NGX_TIMER_INFINITE`). -/
def handle_ack_frame_range (mtu idle now : ℕ) (st : AckRecvState)
    (mn mx : ℕ) : AckRecvState × Option (ℕ × ℕ) × Option ℕ :=
  let init : ArlAcc :=
    ⟨st.cg, st.streams, st.acks, false, 0, none, []⟩
  let acc := st.sent.reverse.foldl (arl_step mtu idle now mn mx) init
  if acc.found then
    ({ st with
        sent := acc.kept
        acks := acc.acks
        cg := acc.cg
        streams := acc.streams
        pto_count := 0 }, none, acc.send_time)
  else
    if mx < st.pnum then (st, none, none)
    else (st, some (NGX_QUIC_ERR_PROTOCOL_VIOLATION, NGX_QUIC_FT_ACK), none)

/-- ACK-accumulator fields of `ngx_quic_send_ctx_t` read and written by
`ngx_quic_ack_packet`: `largest_range` (`none` = `NGX_QUIC_UNSET_PN`),
`first_range`, the gap/range table (newest first), `pending_ack`,
`send_ack`, `ack_delay_start` and `largest_received`. -/
structure AckCtx where
  largest : Option ℕ
  first : ℕ
  ranges : List (ℕ × ℕ)
  pending : Option ℕ
  send_ack : ℕ
  ack_delay_start : ℕ
  largest_received : ℕ
  deriving Repr, DecidableEq

/-- Fields of the ACK frame built by `ngx_quic_send_ack` and
`ngx_quic_send_ack_range`: `u.ack.largest`, `u.ack.delay`,
`u.ack.first_range` and the extra gap/range pairs (`range_count` is their
number). -/
structure AckFrame2 where
  largest : ℕ
  delay : ℕ
  first_range : ℕ
  ranges : List (ℕ × ℕ)
  deriving Repr, DecidableEq

/-- Frame built by `ngx_quic_send_ack` (lines 2886-2935) from the current
accumulator.  At the Application level the delay is
`(now - largest_received) * 1000 >> ack_delay_exponent`. -/
def send_ack_frame (level_app : Bool) (exponent now : ℕ) (a : AckCtx) :
    AckFrame2 :=
  { largest := a.largest.getD 0
    delay := if level_app then ((now - a.largest_received) * 1000) >>> exponent
      else 0
    first_range := a.first
    ranges := a.ranges }

/-- Result of the range-lookup loop of `ngx_quic_ack_packet`
(lines 2683-2788) on the table below the first block: `found rs grow ins`
returns the updated tail of the table, the amount by which the previous
block grows downwards, and whether a new element was inserted (the
`goto insert` paths); `dup` is an already-known PN; `tooOld` is the
"packet is too old to keep it" exit taken when the table is full. -/
inductive FindOut where
  | found (rs : List (ℕ × ℕ)) (grow : ℕ) (ins : Bool)
  | dup
  | tooOld
  deriving Repr, DecidableEq

/-- Range-lookup walk of `ngx_quic_ack_packet` (lines 2683-2788), given the
smallest PN of the previous block.  `full` is the `nranges ==
NGX_QUIC_MAX_RANGES` test, which the loop body does not change before the
exit points that consult it. -/
def ack_find (full : Bool) (pn : ℕ) : ℕ → List (ℕ × ℕ) → FindOut
  | smallest, [] =>
    if pn = smallest - 1 then .found [] 1 false
    else if full then .tooOld
    else .found [(smallest - 2 - pn, 0)] 0 true
  | smallest, (g, r) :: rest =>
    let ge := smallest - 1
    let gs := ge - g
    if gs ≤ pn ∧ pn ≤ ge then
      if gs = ge then .found rest (r + 2) false
      else if pn = gs then .found ((g - 1, r + 1) :: rest) 0 false
      else if pn = ge then .found ((g - 1, r) :: rest) 1 false
      else .found ((ge - pn - 1, 0) :: (pn - gs - 1, r) :: rest) 0 true
    else
      let hi := smallest - g - 2
      let lo := hi - r
      if lo ≤ pn ∧ pn ≤ hi then .dup
      else
        match ack_find full pn lo rest with
        | .found rs grow ins => .found ((g, r + grow) :: rs) 0 ins
        | .dup => .dup
        | .tooOld => .tooOld

/-- Result of `ngx_quic_ack_packet`: the new accumulator, the ACK frames
passed to `ngx_quic_queue_frame` during the call, the frame filled in by
`ngx_quic_send_ack_range` — which `ngx_quic_send_ack_range` never queues —
and whether a capacity branch (`nranges == NGX_QUIC_MAX_RANGES`) was
taken. -/
structure AckPacketOut where
  ctx : AckCtx
  queued : List AckFrame2
  built_unqueued : Option AckFrame2
  hit_cap : Bool
  deriving Repr, DecidableEq

/-- Shallow embedding of `ngx_quic_ack_packet` (lines 2571-2803) for a
packet with number `pn`, ack-eliciting flag `need_ack`, arrival time
`recvTime` (`pkt->received`) at current time `now`.  When the table is full
an insertion flushes the pending ACK first and the `memmove` drops the
oldest range; a PN older than all tracked ranges is handed to
`ngx_quic_send_ack_range`, which fills a degenerate single-PN ACK frame but
returns without queueing it. -/
def ack_packet (maxRanges : ℕ) (level_app : Bool) (exponent now recvTime : ℕ)
    (a0 : AckCtx) (pn : ℕ) (need_ack : Bool) : AckPacketOut :=
  let prev_pending := a0.pending
  let a := if need_ack then
      { a0 with
          send_ack := a0.send_ack + 1
          ack_delay_start := if a0.send_ack = 0 then now else a0.ack_delay_start
          pending := match a0.pending with
            | none => some pn
            | some q => if q < pn then some pn else some q }
    else a0
  match a.largest with
  | none =>
    ⟨{ a with largest := some pn, largest_received := recvTime }, [], none, false⟩
  | some base =>
    if pn = base then ⟨a, [], none, false⟩
    else if base < pn then
      if pn - base = 1 then
        ⟨{ a with
            first := a.first + 1
            largest := some pn
            largest_received := recvTime }, [], none, false⟩
      else
        let full := decide (a.ranges.length = maxRanges)
        let emitted := if full ∧ prev_pending ≠ none then
            [send_ack_frame level_app exponent now a] else []
        let a1 := if full then
            { a with pending := if prev_pending = a.pending ∨ need_ack = false
                then none else a.pending }
          else a
        let rs := (pn - base - 2, a1.first) :: a1.ranges
        ⟨{ a1 with
            first := 0
            largest := some pn
            largest_received := recvTime
            send_ack := if need_ack then NGX_QUIC_MAX_ACK_GAP else a1.send_ack
            ranges := if full then rs.dropLast else rs },
          emitted, none, full⟩
    else
      let a1 := if need_ack then { a with send_ack := NGX_QUIC_MAX_ACK_GAP }
        else a
      let smallest := base - a1.first
      if smallest ≤ pn then ⟨a1, [], none, false⟩
      else
        let full := decide (a1.ranges.length = maxRanges)
        match ack_find full pn smallest a1.ranges with
        | .dup => ⟨a1, [], none, false⟩
        | .tooOld =>
          ⟨a1, [],
            if need_ack then
              some { largest := pn, delay := 0, first_range := 0, ranges := [] }
            else none, true⟩
        | .found rs grow ins =>
          if ins ∧ full then
            let emitted := if prev_pending ≠ none then
                [send_ack_frame level_app exponent now a1] else []
            let a2 := { a1 with pending :=
                if prev_pending = a1.pending ∨ need_ack = false then none
                else a1.pending }
            ⟨{ a2 with first := a2.first + grow, ranges := rs.dropLast },
              emitted, none, true⟩
          else
            ⟨{ a1 with first := a1.first + grow, ranges := rs }, [], none, false⟩

/-- Smallest PN covered by the range table, given the smallest PN of the
first block: the lower end of the oldest tracked range. -/
def smallest_tracked : ℕ → List (ℕ × ℕ) → ℕ
  | s, [] => s
  | s, (g, r) :: rest => smallest_tracked (s - g - 2 - r) rest

/-- Well-formedness of a gap/range table below a block whose smallest PN is
`s`: every gap/range pair fits strictly below the previous block with a
nonempty gap and no `uint64` underflow. -/
def wfFrom : ℕ → List (ℕ × ℕ) → Prop
  | _, [] => True
  | s, (g, r) :: rest => g + 2 + r ≤ s ∧ wfFrom (s - g - 2 - r) rest

/-- The three accumulator fields the claim compares: `largest_range`,
`first_range` and the gap/range table. -/
structure AckCore where
  largest : Option ℕ
  first : ℕ
  ranges : List (ℕ × ℕ)
  deriving Repr, DecidableEq

/-- Projection of the full send-context accumulator onto its core. -/
def core_of (a : AckCtx) : AckCore := ⟨a.largest, a.first, a.ranges⟩

/-- Action of `ngx_quic_ack_packet` on the accumulator core when no
capacity branch is taken: the same case analysis as `ack_packet`, with the
lookup walk run with `full = false`. -/
def ack_core_insert (a : AckCore) (pn : ℕ) : AckCore :=
  match a.largest with
  | none => { a with largest := some pn }
  | some base =>
    if pn = base then a
    else if base < pn then
      if pn - base = 1 then { a with largest := some pn, first := a.first + 1 }
      else { largest := some pn, first := 0,
             ranges := (pn - base - 2, a.first) :: a.ranges }
    else
      if base - a.first ≤ pn then a
      else
        match ack_find false pn (base - a.first) a.ranges with
        | .found rs grow _ => { a with first := a.first + grow, ranges := rs }
        | _ => a

/-- Repeated application of `ngx_quic_ack_packet` to a list of
ack-eliciting packet numbers, collecting whether any capacity branch was
ever taken. -/
def ack_packet_run (maxRanges : ℕ) (level_app : Bool)
    (exponent now recvTime : ℕ) (a : AckCtx) : List ℕ → AckCtx × Bool
  | [] => (a, false)
  | pn :: l =>
    let o := ack_packet maxRanges level_app exponent now recvTime a pn true
    let rest := ack_packet_run maxRanges level_app exponent now recvTime o.ctx l
    (rest.1, o.hit_cap || rest.2)

/-- Repeated application of the accumulator-core action. -/
def ack_core_run (a : AckCore) (l : List ℕ) : AckCore :=
  l.foldl ack_core_insert a

/-- Set of packet numbers represented by a gap/range table below a block
whose smallest PN is `s`. -/
def setFrom : ℕ → List (ℕ × ℕ) → Finset ℕ
  | _, [] => ∅
  | s, (g, r) :: rest =>
      Finset.Icc (s - g - 2 - r) (s - g - 2) ∪ setFrom (s - g - 2 - r) rest

/-- Set of packet numbers represented by an accumulator core. -/
def ackSet (a : AckCore) : Finset ℕ :=
  match a.largest with
  | none => ∅
  | some L => Finset.Icc (L - a.first) L ∪ setFrom (L - a.first) a.ranges

/-- Well-formedness of an accumulator core: the first block fits under
`largest_range`, and the table is well-formed below it; the unset state is
all-zero. -/
def ackWf (a : AckCore) : Prop :=
  match a.largest with
  | none => a.first = 0 ∧ a.ranges = []
  | some L => a.first ≤ L ∧ wfFrom (L - a.first) a.ranges

lemma or_mod_four {flags k : ℕ} (hf : flags % 4 = 0) (hk : k < 4) :
    (flags ||| k) % 4 = k := by
  have h4 : (4 : ℕ) = 2 ^ 2 := rfl
  apply Nat.eq_of_testBit_eq
  intro i
  rw [h4, Nat.testBit_mod_two_pow, Nat.testBit_lor]
  by_cases hi : i < 2
  · have hfb : flags.testBit i = false := by
      have h := Nat.testBit_mod_two_pow flags 2 i
      rw [← h4, hf] at h
      simpa [hi] using h.symm
    simp [hi, hfb]
  · have hkb : k.testBit i = false := by
      apply Nat.testBit_lt_two_pow
      calc k < 2 ^ 2 := by omega
        _ ≤ 2 ^ i := Nat.pow_le_pow_right (by norm_num) (by omega)
    simp [hi, hkb]

set_option maxRecDepth 8192 in
/-- Claim C3, counterexample.  The claim says the truncated packet-number
length is 4 bytes whenever `largest_ack` is unset; but the unset sentinel is
`(uint64_t) -1`, so `delta = pnum - largest_ack` wraps to `pnum + 1`, and
for `pnum = 0` the code picks a 1-byte packet number, not 4. -/
theorem set_packet_number_unset_not_four :
    (set_packet_number 0x40 0 NGX_QUIC_UNSET_PN).num_len = 1 ∧
      ¬ (set_packet_number 0x40 0 NGX_QUIC_UNSET_PN).num_len = 4 := by
  have h : set_packet_number 0x40 0 NGX_QUIC_UNSET_PN =
      { flags := 0x40, num_len := 1, trunc := 0, number := 0 } := by
    unfold set_packet_number pn_delta NGX_QUIC_UNSET_PN
    norm_num
  rw [h]
  exact ⟨rfl, by norm_num⟩

/-- Claim C3, amended.  For every outgoing packet the chosen truncated
packet-number length is in {1,2,3,4}; with `delta = pnum - largest_ack`
taken modulo `2 ^ 64` (so an unset `largest_ack`, stored as the sentinel
`2 ^ 64 - 1`, yields `delta = pnum + 1`, not a forced 4-byte length), the
chosen length is the least `n < 4` with `delta < 2 ^ (8 n - 1)`, and 4 if
there is none; the length minus one is encoded in the two low flag bits,
and the truncated PN is the low `8 n` bits of the full PN. -/
theorem set_packet_number_spec (flags pnum largest_ack : ℕ)
    (hf : flags % 4 = 0) :
    ((set_packet_number flags pnum largest_ack).num_len = 1 ∨
        (set_packet_number flags pnum largest_ack).num_len = 2 ∨
        (set_packet_number flags pnum largest_ack).num_len = 3 ∨
        (set_packet_number flags pnum largest_ack).num_len = 4)
    ∧ (set_packet_number flags pnum largest_ack).flags % 4 =
        (set_packet_number flags pnum largest_ack).num_len - 1
    ∧ (pn_delta pnum largest_ack <
          2 ^ (8 * (set_packet_number flags pnum largest_ack).num_len - 1) ∨
        (set_packet_number flags pnum largest_ack).num_len = 4)
    ∧ (2 ≤ (set_packet_number flags pnum largest_ack).num_len →
        2 ^ (8 * ((set_packet_number flags pnum largest_ack).num_len - 1) - 1) ≤
          pn_delta pnum largest_ack)
    ∧ (set_packet_number flags pnum largest_ack).trunc =
        pnum % 2 ^ (8 * (set_packet_number flags pnum largest_ack).num_len)
    ∧ (largest_ack = NGX_QUIC_UNSET_PN → pnum < 2 ^ 64 →
        pn_delta pnum largest_ack = (pnum + 1) % 2 ^ 64) := by
  have hdelta : largest_ack = NGX_QUIC_UNSET_PN → pnum < 2 ^ 64 →
      pn_delta pnum largest_ack = (pnum + 1) % 2 ^ 64 := by
    intro hla _
    subst hla
    unfold pn_delta NGX_QUIC_UNSET_PN
    omega
  unfold set_packet_number
  split
  · rename_i h1
    refine ⟨Or.inl rfl, by simpa using hf, Or.inl ?_, ?_, rfl, hdelta⟩
    · show pn_delta pnum largest_ack < 128
      omega
    · show 2 ≤ 1 → 1 ≤ pn_delta pnum largest_ack
      omega
  · rename_i h1
    split
    · rename_i h2
      refine ⟨Or.inr (Or.inl rfl), or_mod_four hf (by norm_num), Or.inl ?_,
        fun _ => ?_, rfl, hdelta⟩
      · show pn_delta pnum largest_ack < 32768
        omega
      · show 128 ≤ pn_delta pnum largest_ack
        omega
    · rename_i h2
      split
      · rename_i h3
        refine ⟨Or.inr (Or.inr (Or.inl rfl)), or_mod_four hf (by norm_num),
          Or.inl ?_, fun _ => ?_, rfl, hdelta⟩
        · show pn_delta pnum largest_ack < 8388608
          omega
        · show 32768 ≤ pn_delta pnum largest_ack
          omega
      · rename_i h3
        refine ⟨Or.inr (Or.inr (Or.inr rfl)), or_mod_four hf (by norm_num),
          Or.inr rfl, fun _ => ?_, rfl, hdelta⟩
        show 8388608 ≤ pn_delta pnum largest_ack
        omega

set_option maxRecDepth 8192 in
/-- Witness for `set_packet_number_spec` at a concrete input. -/
theorem set_packet_number_spec_witness :
    (0x40 : ℕ) % 4 = 0 ∧
      (set_packet_number 0x40 200 100).flags % 4 =
        (set_packet_number 0x40 200 100).num_len - 1 :=
  ⟨by decide, (set_packet_number_spec 0x40 200 100 (by decide)).2.1⟩

/-! ### Stateless reset (`ngx_quic_send_stateless_reset`, lines 1062-1114) -/

/-- Claim C4, counterexample.  For a 30-byte short-header packet the code
does emit a stateless reset (the guard is `pkt->len > 21`), but its length
is `pkt->len - 1 = 29`, which is below the claimed lower bound of 43. -/
theorem sr_packet_len_small_packet :
    sr_packet_len 32 30 0 = some 29 ∧
      ¬ (NGX_QUIC_MIN_SR_PACKET ≤ 29 ∧ 29 ≤ min 1200 (3 * 30)) := by
  constructor
  · rfl
  · decide

/-- Claim C4, amended.  When a stateless reset is emitted for a received
packet longer than `NGX_QUIC_MIN_SR_PACKET` (43) bytes, its total length
lies between 43 and `min(1200, 3 × received length)`; for received lengths
in (21, 43] the reset is exactly one byte shorter than the received packet;
and in all cases the datagram is a random prefix whose last 16 bytes are
the reset token computed by the local keyed PRF over the received DCID. -/
theorem sr_packet_spec (klen pktLen rnd len : ℕ) (rand token : List ℕ)
    (hsend : sr_packet_len klen pktLen rnd = some len)
    (hrand : len - NGX_QUIC_SR_TOKEN_LEN ≤ rand.length)
    (htok : token.length = NGX_QUIC_SR_TOKEN_LEN) :
    (NGX_QUIC_MIN_SR_PACKET < pktLen →
      NGX_QUIC_MIN_SR_PACKET ≤ len ∧
        len ≤ min NGX_QUIC_MAX_SR_PACKET (pktLen * 3))
    ∧ (NGX_QUIC_MIN_PKT_LEN < pktLen → pktLen ≤ NGX_QUIC_MIN_SR_PACKET →
        len = pktLen - 1)
    ∧ (sr_datagram len rand token).length = len
    ∧ (sr_datagram len rand token).drop (len - NGX_QUIC_SR_TOKEN_LEN) = token := by
  unfold sr_packet_len at hsend
  unfold NGX_QUIC_MIN_PKT_LEN NGX_QUIC_MIN_SR_PACKET NGX_QUIC_MAX_SR_PACKET
    NGX_QUIC_SR_TOKEN_LEN at *
  have h21 : 16 < len := by
    by_cases h0 : klen = 0
    · simp [h0] at hsend
    by_cases h1 : pktLen ≤ 21
    · simp [h0, h1] at hsend
    by_cases h2 : pktLen ≤ 43
    · simp [h0, h1, h2] at hsend
      omega
    · simp [h0, h1, h2] at hsend
      omega
  have hlen : (sr_datagram len rand token).length = len ∧
      (sr_datagram len rand token).drop (len - 16) = token := by
    unfold sr_datagram NGX_QUIC_SR_TOKEN_LEN
    have htk : rand.take (len - 16) ≠ [] := by
      intro hnil
      have hnl := congrArg List.length hnil
      rw [List.length_take, Nat.min_eq_left hrand] at hnl
      simp at hnl
      omega
    rcases hx : rand.take (len - 16) with _ | ⟨b, rest⟩
    · exact absurd hx htk
    · have hlrest : rest.length = len - 16 - 1 := by
        have hy := congrArg List.length hx
        rw [List.length_take, Nat.min_eq_left hrand, List.length_cons] at hy
        omega
      have h16 : len - 16 = rest.length + 1 := by omega
      constructor
      · simp [hlrest, htok]
        omega
      · rw [h16]
        show List.drop (rest.length + 1) (sr_first_byte b :: (rest ++ token)) = token
        rw [List.drop_succ_cons, List.drop_left]
  refine ⟨?_, ?_, hlen.1, hlen.2⟩
  · intro h43
    by_cases h0 : klen = 0
    · simp [h0] at hsend
    have h1 : ¬ pktLen ≤ 21 := by omega
    have h2 : ¬ pktLen ≤ 43 := by omega
    simp [h0, h1, h2] at hsend
    have hM : 43 ≤ min 1200 (pktLen * 3) := le_min (by norm_num) (by omega)
    have hmod : rnd % 65536 % (min 1200 (pktLen * 3) - 43 + 1) <
        min 1200 (pktLen * 3) - 43 + 1 := Nat.mod_lt _ (by omega)
    omega
  · intro h21a h43
    by_cases h0 : klen = 0
    · simp [h0] at hsend
    have h1 : ¬ pktLen ≤ 21 := by omega
    simp [h0, h1, h43] at hsend
    omega

/-- Witness for `sr_packet_spec` at a concrete input. -/
theorem sr_packet_spec_witness :
    sr_packet_len 32 100 5 = some 48 ∧
      (48 - NGX_QUIC_SR_TOKEN_LEN ≤ (List.replicate 40 7).length) ∧
      (List.replicate 16 9).length = NGX_QUIC_SR_TOKEN_LEN ∧
      (NGX_QUIC_MIN_SR_PACKET < 100 →
        NGX_QUIC_MIN_SR_PACKET ≤ 48 ∧ 48 ≤ min NGX_QUIC_MAX_SR_PACKET (100 * 3)) := by
  have h1 : sr_packet_len 32 100 5 = some 48 := by
    unfold sr_packet_len NGX_QUIC_MIN_PKT_LEN NGX_QUIC_MIN_SR_PACKET
      NGX_QUIC_MAX_SR_PACKET
    norm_num
  refine ⟨h1, by simp [NGX_QUIC_SR_TOKEN_LEN], by simp [NGX_QUIC_SR_TOKEN_LEN], ?_⟩
  exact (sr_packet_spec 32 100 5 48 (List.replicate 40 7) (List.replicate 16 9)
    h1 (by simp [NGX_QUIC_SR_TOKEN_LEN]) (by simp [NGX_QUIC_SR_TOKEN_LEN])).1

/-! ### Congestion controller (`ngx_quic_congestion_ack` lines 5704-5752,
`ngx_quic_congestion_lost` lines 5755-5794) -/

lemma cg_step_window_lb (mtu idle : ℕ) (cg : Congestion) (e : CgEvent)
    (h : mtu * 2 ≤ cg.window) : mtu * 2 ≤ (cg_step mtu idle cg e).window := by
  cases e with
  | ack plen last now =>
    unfold cg_step congestion_ack
    dsimp only
    split
    · exact h
    · split
      · exact h
      · split <;> split <;> dsimp only <;>
          exact le_trans h (Nat.le_add_right _ _)
  | lost plen last now =>
    unfold cg_step congestion_lost
    dsimp only
    split
    · exact h
    · split
      · exact h
      · split <;> dsimp only <;> omega

lemma cg_fold_window_lb (mtu idle : ℕ) :
    ∀ (evs : List CgEvent) (cg : Congestion), mtu * 2 ≤ cg.window →
      mtu * 2 ≤ (evs.foldl (cg_step mtu idle) cg).window
  | [], _, h => by simpa using h
  | e :: tl, cg, h => by
      rw [List.foldl_cons]
      exact cg_fold_window_lb mtu idle tl _ (cg_step_window_lb mtu idle cg e h)

/-- Claim C8.  An effective loss event (nonzero `plen`, sent after the
recovery start) sets `recovery_start` to now, halves the window clamping it
to at least `2 × max_udp_payload_size`, and copies the result to
`ssthresh`; and after such a loss event the window stays at or above
`2 × max_udp_payload_size` across every later sequence of ack and loss
updates. -/
theorem congestion_lost_spec (mtu idle now : ℕ) (cg : Congestion)
    (f : CgFrame) (hplen : f.plen ≠ 0)
    (hrec : cg.recovery_start < f.last) :
    (congestion_lost mtu now cg f).recovery_start = now
    ∧ (congestion_lost mtu now cg f).window = max (cg.window / 2) (mtu * 2)
    ∧ (congestion_lost mtu now cg f).ssthresh =
        (congestion_lost mtu now cg f).window
    ∧ ∀ evs : List CgEvent,
        mtu * 2 ≤ (evs.foldl (cg_step mtu idle) (congestion_lost mtu now cg f)).window := by
  have hbase : (congestion_lost mtu now cg f).recovery_start = now
      ∧ (congestion_lost mtu now cg f).window = max (cg.window / 2) (mtu * 2)
      ∧ (congestion_lost mtu now cg f).ssthresh =
          (congestion_lost mtu now cg f).window := by
    unfold congestion_lost
    rw [if_neg hplen, if_neg (by simpa using Nat.not_le.mpr hrec)]
    dsimp only
    split <;> dsimp only <;> omega
  refine ⟨hbase.1, hbase.2.1, hbase.2.2, ?_⟩
  intro evs
  have hstart : mtu * 2 ≤ (congestion_lost mtu now cg f).window := by
    rw [hbase.2.1]; omega
  exact cg_fold_window_lb mtu idle evs _ hstart

/-- Witness for `congestion_lost_spec` at a concrete input. -/
theorem congestion_lost_spec_witness :
    (1200 : ℕ) ≠ 0 ∧ (5 : ℕ) < 9 ∧
      (congestion_lost 1200 20 ⟨10000, 14720, 2 ^ 64 - 1, 5⟩ ⟨1200, 9⟩).window =
        max (14720 / 2) (1200 * 2) := by
  refine ⟨by norm_num, by norm_num, ?_⟩
  exact (congestion_lost_spec 1200 30000 20 ⟨10000, 14720, 2 ^ 64 - 1, 5⟩
    ⟨1200, 9⟩ (by norm_num) (by norm_num)).2.1

/-! ### Streams (`ngx_quic_create_client_stream` lines 5046-5133, MAX_DATA /
MAX_STREAM_DATA / MAX_STREAMS handlers lines 3781-3817, 3886-3944,
4055-4081) -/

lemma stream_loop_ids_eq (n : ℕ) :
    ∀ min_id, stream_loop_ids min_id (min_id + 4 * n) =
      (List.range n).map (fun k => min_id + 4 * k) := by
  induction n with
  | zero =>
    intro m
    rw [stream_loop_ids]
    simp
  | succ n ih =>
    intro m
    rw [stream_loop_ids]
    rw [dif_pos (show m < m + 4 * (n + 1) by omega)]
    have hm : m + 4 + 4 * n = m + 4 * (n + 1) := by ring
    have := ih (m + 4)
    rw [hm] at this
    rw [this, List.range_succ_eq_map]
    simp only [List.map_cons, List.map_map]
    refine List.cons_eq_cons.mpr ⟨by omega, ?_⟩
    apply List.map_congr_left
    intro k _
    simp only [Function.comp_apply]
    omega

/-- Claim C7.  For a frame referencing an unseen client-initiated stream ID
(`id/4` at or past the per-type created-streams counter): if `id/4` is at or
above the MAX_STREAMS limit for its type the call fails with
`STREAM_LIMIT_ERROR` and changes nothing; otherwise the stream is created
together with every lower-numbered not-yet-created stream of the same type,
i.e. exactly the IDs `cur*4+bits, (cur+1)*4+bits, …, id` in increasing
order, and the per-type counter becomes `id/4 + 1`. -/
theorem create_client_stream_spec (st : StreamCounts) (id : ℕ)
    (hclient : id % 2 = 0)
    (hunseen : (if id % 4 / 2 = 1 then st.client_streams_uni
        else st.client_streams_bidi) ≤ id / 4) :
    (let mx := if id % 4 / 2 = 1 then st.client_max_streams_uni
        else st.client_max_streams_bidi
     let cur := if id % 4 / 2 = 1 then st.client_streams_uni
        else st.client_streams_bidi
     let bits := id % 4
     (mx ≤ id / 4 →
        create_client_stream st id = .fail NGX_QUIC_ERR_STREAM_LIMIT_ERROR)
     ∧ (id / 4 < mx →
        create_client_stream st id =
          .created
            (if id % 4 / 2 = 1 then { st with client_streams_uni := id / 4 + 1 }
             else { st with client_streams_bidi := id / 4 + 1 })
            ((List.range (id / 4 + 1 - cur)).map (fun k => (cur + k) * 4 + bits)))) := by
  have hkey : ∀ cur bits, bits = id % 4 → cur ≤ id / 4 →
      stream_loop_ids (cur * 4 + bits) id ++ [id] =
        (List.range (id / 4 + 1 - cur)).map (fun k => (cur + k) * 4 + bits) := by
    intro cur bits hbits hcur
    have hid : id = cur * 4 + bits + 4 * (id / 4 - cur) := by omega
    have h1 : stream_loop_ids (cur * 4 + bits) id =
        (List.range (id / 4 - cur)).map (fun k => cur * 4 + bits + 4 * k) := by
      conv in stream_loop_ids _ id => rw [hid]
      exact stream_loop_ids_eq _ _
    rw [h1]
    have h2 : id / 4 + 1 - cur = (id / 4 - cur) + 1 := by omega
    rw [h2, List.range_succ, List.map_append]
    congr 1
    · apply List.map_congr_left
      intro k _
      ring
    · simp
      omega
  dsimp only
  by_cases huni : id % 4 / 2 = 1
  · have hb : ¬ id % 2 = 1 := by omega
    rw [if_pos huni] at hunseen
    constructor
    · intro hmx
      unfold create_client_stream
      rw [if_pos huni, if_neg hb, if_neg (by omega),
        if_pos (by simpa [huni] using hmx)]
    · intro hmx
      unfold create_client_stream
      rw [if_pos huni, if_neg hb, if_neg (by omega),
        if_neg (by simpa [huni] using Nat.not_le.mpr hmx)]
      rw [if_pos huni, if_pos huni]
      have hbits : NGX_QUIC_STREAM_UNIDIRECTIONAL = id % 4 := by
        unfold NGX_QUIC_STREAM_UNIDIRECTIONAL
        omega
      rw [hbits]
      dsimp only
      rw [hkey _ _ rfl hunseen]
  · have hb : ¬ id % 2 = 1 := by omega
    rw [if_neg huni] at hunseen
    constructor
    · intro hmx
      unfold create_client_stream
      rw [if_neg huni, if_neg hb, if_neg (by omega),
        if_pos (by simpa [huni] using hmx)]
    · intro hmx
      unfold create_client_stream
      rw [if_neg huni, if_neg hb, if_neg (by omega),
        if_neg (by simpa [huni] using Nat.not_le.mpr hmx)]
      rw [if_neg huni, if_neg huni]
      have hbits : st.client_streams_bidi * 4 =
          st.client_streams_bidi * 4 + id % 4 := by omega
      rw [hbits]
      dsimp only
      rw [hkey _ _ rfl hunseen]

/-- Witness for `create_client_stream_spec` at a concrete input. -/
theorem create_client_stream_spec_witness :
    (8 : ℕ) % 2 = 0 ∧
      create_client_stream ⟨0, 0, 0, 0, 3, 3, 0, 0, 0, 0⟩ 8 =
        .created ⟨0, 0, 0, 0, 3, 3, 0, 3, 0, 0⟩ [0, 4, 8] := by
  refine ⟨by norm_num, ?_⟩
  have h := (create_client_stream_spec ⟨0, 0, 0, 0, 3, 3, 0, 0, 0, 0⟩ 8
    (by norm_num) (by norm_num)).2 (by norm_num)
  rw [h]
  norm_num [List.range_succ]

/-- Counterexample to claim C10 as stated.  Stream ID 2 denotes a
client-initiated unidirectional stream (bit 0x2 set, bit 0x1 clear); such
streams do exist in the server tree once the client opens them
(`ngx_quic_create_client_stream`, lines 5046-5133).  A MAX_STREAM_DATA
frame for it carrying a limit (5) not greater than the current
`send_max_data` (10) does not succeed leaving the stream unchanged as the
claim asserts: `ngx_quic_handle_max_stream_data_frame` fails up front with
`STREAM_STATE_ERROR` (lines 3897-3902). -/
theorem max_stream_data_client_uni_errors :
    (2 : ℕ) % 4 / 2 = 1 ∧ (2 : ℕ) % 2 = 0 ∧ (5 : ℕ) ≤ 10 ∧
      handle_max_stream_data_existing ⟨10, 0⟩ 2 5 =
        .error NGX_QUIC_ERR_STREAM_STATE_ERROR ∧
      handle_max_stream_data_existing ⟨10, 0⟩ 2 5 ≠ .ok ⟨10, 0⟩ := by
  refine ⟨by norm_num, by norm_num, by norm_num, rfl, ?_⟩
  rw [show handle_max_stream_data_existing ⟨10, 0⟩ 2 5 =
      Except.error NGX_QUIC_ERR_STREAM_STATE_ERROR from rfl]
  simp

/-- Claim C10 (amended).  Peer-granted send credits are monotone: MAX_DATA
never decreases `send_max_data` and is a successful no-op when the limit
is not above the current value; MAX_STREAM_DATA on an existing stream
whose ID denotes a client-initiated unidirectional stream always fails
with `STREAM_STATE_ERROR` (lines 3897-3902) leaving the stream unchanged,
while for every other stream ID it never decreases that stream's
`send_max_data` and is a successful no-op when the limit is not above the
current value; MAX_STREAMS never decreases the server-side bidi or uni
stream-count limit and is a no-op when the limit is not above the current
value, always returning `NGX_OK`. -/
theorem max_frames_monotone (st : StreamCounts) (sn : StreamSn)
    (bidi : Bool) (id v : ℕ) :
    (st.send_max_data ≤ (handle_max_data_frame st v).send_max_data
      ∧ (v ≤ st.send_max_data → handle_max_data_frame st v = st))
    ∧ ((id % 4 / 2 = 1 ∧ id % 2 = 0 →
          handle_max_stream_data_existing sn id v =
            .error NGX_QUIC_ERR_STREAM_STATE_ERROR)
      ∧ (¬ (id % 4 / 2 = 1 ∧ id % 2 = 0) →
          (handle_max_stream_data_existing sn id v = .ok sn ∨
            handle_max_stream_data_existing sn id v =
              .ok { sn with send_max_data := v })
          ∧ (∀ sn1, handle_max_stream_data_existing sn id v = .ok sn1 →
              sn.send_max_data ≤ sn1.send_max_data)
          ∧ (v ≤ sn.send_max_data →
              handle_max_stream_data_existing sn id v = .ok sn)))
    ∧ (st.server_max_streams_bidi ≤
        (handle_max_streams_frame st bidi v).server_max_streams_bidi
      ∧ st.server_max_streams_uni ≤
        (handle_max_streams_frame st bidi v).server_max_streams_uni
      ∧ (v ≤ (if bidi then st.server_max_streams_bidi
            else st.server_max_streams_uni) →
          handle_max_streams_frame st bidi v = st)) := by
  refine ⟨⟨?_, ?_⟩, ⟨?_, ?_⟩, ?_, ?_, ?_⟩
  · unfold handle_max_data_frame
    split <;> simp <;> omega
  · intro hv
    unfold handle_max_data_frame
    rw [if_pos hv]
  · intro hid
    unfold handle_max_stream_data_existing
    rw [if_pos hid]
  · intro hid
    refine ⟨?_, ?_, ?_⟩
    · unfold handle_max_stream_data_existing
      rw [if_neg hid]
      split
      · exact Or.inl rfl
      · exact Or.inr rfl
    · intro sn1 h1
      unfold handle_max_stream_data_existing at h1
      rw [if_neg hid] at h1
      split at h1 <;> rw [← Except.ok.inj h1] <;> simp <;> omega
    · intro hv
      unfold handle_max_stream_data_existing
      rw [if_neg hid, if_pos hv]
  · unfold handle_max_streams_frame
    cases bidi <;> simp only [Bool.false_eq_true, reduceIte] <;>
      split <;> simp <;> omega
  · unfold handle_max_streams_frame
    cases bidi <;> simp only [Bool.false_eq_true, reduceIte] <;>
      split <;> simp <;> omega
  · intro hv
    unfold handle_max_streams_frame
    cases bidi <;> simp only [Bool.false_eq_true, reduceIte] at hv ⊢ <;>
      rw [if_neg (by omega)]

/-- Witness for `max_frames_monotone` at concrete inputs: MAX_DATA with
limit 40 below the current 50 is a successful no-op, and a MAX_STREAM_DATA
frame for the client-initiated unidirectional stream ID 2 fails with
`STREAM_STATE_ERROR`. -/
theorem max_frames_monotone_witness :
    handle_max_data_frame ⟨0, 0, 0, 0, 0, 0, 0, 0, 50, 0⟩ 40 =
        ⟨0, 0, 0, 0, 0, 0, 0, 0, 50, 0⟩ ∧
      handle_max_stream_data_existing ⟨10, 0⟩ 2 5 =
        .error NGX_QUIC_ERR_STREAM_STATE_ERROR := by
  refine ⟨?_, ?_⟩
  · exact ((max_frames_monotone ⟨0, 0, 0, 0, 0, 0, 0, 0, 50, 0⟩ ⟨0, 0⟩ true 4
      40).1).2 (by norm_num)
  · exact (((max_frames_monotone ⟨0, 0, 0, 0, 0, 0, 0, 0, 50, 0⟩ ⟨10, 0⟩ true 2
      5).2).1).1 (by norm_num)

/-! ### Ordered-frame reassembly and CRYPTO frames
(`ngx_quic_handle_ordered_frame` lines 3306-3414,
`ngx_quic_adjust_frame_offset` lines 3417-3446,
`ngx_quic_buffer_frame` lines 3449-3506,
`ngx_quic_handle_crypto_frame` lines 3509-3549) -/

lemma insert_rev_perm (f : OrdFrame) :
    ∀ xs : List OrdFrame, (insert_rev f xs).Perm (f :: xs)
  | [] => List.Perm.refl _
  | x :: xs => by
    unfold insert_rev
    split
    · exact List.Perm.refl _
    · exact ((insert_rev_perm f xs).cons x).trans (List.Perm.swap f x xs)

lemma insert_rev_sorted (f : OrdFrame) :
    ∀ xs : List OrdFrame, xs.Pairwise (fun a b => b.offset ≤ a.offset) →
      (insert_rev f xs).Pairwise (fun a b => b.offset ≤ a.offset)
  | [], _ => List.pairwise_singleton _ _
  | x :: xs, h => by
    unfold insert_rev
    rw [List.pairwise_cons] at h
    split
    · rename_i hx
      refine List.Pairwise.cons ?_ (List.Pairwise.cons h.1 h.2)
      intro y hy
      rcases List.mem_cons.mp hy with rfl | hy
      · omega
      · have := h.1 y hy
        omega
    · rename_i hx
      refine List.Pairwise.cons ?_ (insert_rev_sorted f xs h.2)
      intro y hy
      have hy2 := (insert_rev_perm f xs).mem_iff.mp hy
      rcases List.mem_cons.mp hy2 with rfl | hy2
      · omega
      · exact h.1 y hy2

lemma buffer_insert_perm (q : List OrdFrame) (f : OrdFrame) :
    (buffer_insert q f).Perm (f :: q) := by
  unfold buffer_insert
  have h1 : (insert_rev f q.reverse).reverse.Perm (insert_rev f q.reverse) :=
    List.reverse_perm _
  have h2 := insert_rev_perm f q.reverse
  have h3 : (f :: q.reverse).Perm (f :: q) := (List.reverse_perm q).cons f
  exact (h1.trans h2).trans h3

lemma buffer_insert_sorted (q : List OrdFrame) (f : OrdFrame)
    (h : offsetsSorted q) : offsetsSorted (buffer_insert q f) := by
  unfold buffer_insert offsetsSorted
  rw [List.pairwise_reverse]
  apply insert_rev_sorted
  exact List.pairwise_reverse.mpr h

set_option maxRecDepth 8192 in
/-- Claim C2, counterexample.  A CRYPTO frame of a single byte at offset
65535 into an empty reassembly state is rejected with
`CRYPTO_BUFFER_EXCEEDED`, although accepting it would have buffered only
one byte (far below 65535): the code bounds the forward span
`offset + length - received`, not the number of buffered bytes. -/
theorem handle_crypto_frame_rejects_small_buffer :
    handle_crypto_frame (fun _ => .ok) ⟨0, 0, []⟩ ⟨65535, 1⟩ =
        .bufferExceeded
      ∧ (0 : ℕ) + 1 ≤ 65535 := by
  constructor
  · rfl
  · norm_num

/-- Claim C2, amended.  Handling a received CRYPTO frame fails with
`CRYPTO_BUFFER_EXCEEDED` exactly when the frame's end offset exceeds
`received + 65535` — a bound on the forward span of the frame beyond the
contiguous position, not on the aggregate buffered byte count; otherwise a
frame whose offset lies beyond `received` is stored in the reassembly
queue, which is kept in offset order. -/
theorem handle_crypto_frame_spec (handler : OrdFrame → HandlerRes)
    (fs : FramesStream) (f : OrdFrame) :
    (handle_crypto_frame handler fs f = .bufferExceeded ↔
      fs.received + NGX_QUIC_MAX_BUFFERED < f.offset + f.length)
    ∧ (fs.received < f.offset →
        f.offset + f.length ≤ fs.received + NGX_QUIC_MAX_BUFFERED →
        handle_crypto_frame handler fs f =
          .ok { received := fs.received, total := fs.total + f.length,
                frames := buffer_insert fs.frames f }
        ∧ (buffer_insert fs.frames f).Perm (f :: fs.frames)
        ∧ (offsetsSorted fs.frames → offsetsSorted (buffer_insert fs.frames f))) := by
  have hB : NGX_QUIC_MAX_BUFFERED = 65535 := rfl
  constructor
  · unfold handle_crypto_frame
    dsimp only
    split
    · rename_i hc
      simp only [true_iff]
      omega
    · rename_i hc
      constructor
      · intro h
        split at h <;> simp at h
      · intro h
        omega
  · intro hoff hbound
    refine ⟨?_, buffer_insert_perm fs.frames f,
      buffer_insert_sorted fs.frames f⟩
    unfold handle_crypto_frame
    dsimp only
    rw [if_neg (by omega)]
    unfold handle_ordered_frame
    rw [if_pos hoff]
    rfl

set_option maxRecDepth 8192 in
/-- Witness for `handle_crypto_frame_spec` at a concrete input. -/
theorem handle_crypto_frame_spec_witness :
    (10 : ℕ) < 20 ∧ (20 : ℕ) + 5 ≤ 10 + NGX_QUIC_MAX_BUFFERED ∧
      handle_crypto_frame (fun _ => .ok) ⟨10, 0, []⟩ ⟨20, 5⟩ =
        .ok { received := 10, total := 0 + 5,
              frames := buffer_insert [] ⟨20, 5⟩ } := by
  refine ⟨by norm_num, by norm_num [NGX_QUIC_MAX_BUFFERED], ?_⟩
  exact ((handle_crypto_frame_spec (fun _ => .ok) ⟨10, 0, []⟩ ⟨20, 5⟩).2
    (by norm_num) (by norm_num [NGX_QUIC_MAX_BUFFERED])).1

/-! ### Connection-ID lifecycle
(`ngx_quic_handle_new_connection_id_frame` lines 4105-4244,
`ngx_quic_retire_connection_id` lines 4247-4265) -/

set_option maxRecDepth 8192 in
/-- Claim C5, counterexample.  The post-processing limit check compares the
active count against the local `qc->tp.active_connection_id_limit`, not the
peer value `qc->ctp.active_connection_id_limit`: with a peer limit of 2 and
a local limit of 10, a third NEW_CONNECTION_ID is accepted without error
even though the count now exceeds the peer limit. -/
theorem handle_new_conn_id_checks_local_limit :
    (handle_new_connection_id_frame
        ⟨[⟨0, 1, [0], []⟩, ⟨1, 1, [1], [7]⟩], 0, 1, [1], 10, 2⟩
        ⟨2, 0, 1, [2], [8]⟩).2.2 = none ∧
      (2 : ℕ) <
        (handle_new_connection_id_frame
          ⟨[⟨0, 1, [0], []⟩, ⟨1, 1, [1], [7]⟩], 0, 1, [1], 10, 2⟩
          ⟨2, 0, 1, [2], [8]⟩).1.client_ids.length := by
  exact ⟨rfl, by decide⟩

lemma cid_retire_phase_spec (st : CidState) (retired : List ℕ)
    (f : NewConnIdFrame) :
    ((cid_retire_phase st retired f).2.2 =
        some NGX_QUIC_ERR_CONNECTION_ID_LIMIT_ERROR ↔
      st.tp_active_connection_id_limit <
        (cid_retire_phase st retired f).1.client_ids.length)
    ∧ ((cid_retire_phase st retired f).2.2 = none ↔
      (cid_retire_phase st retired f).1.client_ids.length ≤
        st.tp_active_connection_id_limit)
    ∧ (cid_retire_phase st retired f).2.2 ≠
        some NGX_QUIC_ERR_PROTOCOL_VIOLATION := by
  unfold cid_retire_phase
  have hP : NGX_QUIC_ERR_CONNECTION_ID_LIMIT_ERROR ≠
      NGX_QUIC_ERR_PROTOCOL_VIOLATION := by
    unfold NGX_QUIC_ERR_CONNECTION_ID_LIMIT_ERROR NGX_QUIC_ERR_PROTOCOL_VIOLATION
    norm_num
  split
  · rename_i h1
    dsimp only
    split <;> rename_i h2 <;>
      refine ⟨?_, ?_, ?_⟩ <;> simp_all <;> omega
  · rename_i h1
    dsimp only
    split <;> rename_i h2 <;>
      refine ⟨?_, ?_, ?_⟩ <;> simp_all <;> omega

/-- Claim C5, amended.  After processing a NEW_CONNECTION_ID frame
(including adding the new entry and retiring entries below
`retire_prior_to`), the handler fails with `CONNECTION_ID_LIMIT_ERROR`
exactly when the resulting count of active client connection-ID entries
exceeds the *local* `active_connection_id_limit` (the value the server
advertised to the peer, `qc->tp`); hence whenever the handler succeeds the
active client-CID count is at most that local limit.  The peer limit
(`qc->ctp`) is not consulted. -/
theorem handle_new_conn_id_limit_spec (st : CidState) (f : NewConnIdFrame)
    (hnp : (handle_new_connection_id_frame st f).2.2 ≠
      some NGX_QUIC_ERR_PROTOCOL_VIOLATION) :
    ((handle_new_connection_id_frame st f).2.2 =
        some NGX_QUIC_ERR_CONNECTION_ID_LIMIT_ERROR ↔
      st.tp_active_connection_id_limit <
        (handle_new_connection_id_frame st f).1.client_ids.length)
    ∧ ((handle_new_connection_id_frame st f).2.2 = none →
      (handle_new_connection_id_frame st f).1.client_ids.length ≤
        st.tp_active_connection_id_limit) := by
  unfold handle_new_connection_id_frame at hnp ⊢
  by_cases h1 : f.seqnum < st.max_retired_seqnum
  · rw [if_pos h1] at hnp ⊢
    exact ⟨(cid_retire_phase_spec st _ f).1,
      fun h => ((cid_retire_phase_spec st _ f).2.1).mp h⟩
  · rw [if_neg h1] at hnp ⊢
    rcases hfind : st.client_ids.find? (fun c => c.seqnum = f.seqnum) with _ | c
    · rw [hfind] at hnp ⊢
      dsimp only at hnp ⊢
      split
      · exact ⟨(cid_retire_phase_spec _ [] f).1,
          fun h => ((cid_retire_phase_spec _ [] f).2.1).mp h⟩
      · exact ⟨(cid_retire_phase_spec _ [] f).1,
          fun h => ((cid_retire_phase_spec _ [] f).2.1).mp h⟩
    · rw [hfind] at hnp ⊢
      dsimp only at hnp ⊢
      by_cases hdup : c.len ≠ f.len ∨ c.id ≠ f.cid ∨ c.sr_token ≠ f.srt
      · rw [if_pos hdup] at hnp
        exact absurd rfl hnp
      · rw [if_neg hdup] at hnp ⊢
        exact ⟨(cid_retire_phase_spec st [] f).1,
          fun h => ((cid_retire_phase_spec st [] f).2.1).mp h⟩

/-- Witness for `handle_new_conn_id_limit_spec` at a concrete input. -/
theorem handle_new_conn_id_limit_spec_witness :
    (handle_new_connection_id_frame ⟨[⟨0, 1, [0], []⟩], 0, 0, [0], 2, 2⟩
        ⟨1, 0, 1, [1], [9]⟩).2.2 ≠
      some NGX_QUIC_ERR_PROTOCOL_VIOLATION ∧
    ((handle_new_connection_id_frame ⟨[⟨0, 1, [0], []⟩], 0, 0, [0], 2, 2⟩
        ⟨1, 0, 1, [1], [9]⟩).2.2 = none →
      (handle_new_connection_id_frame ⟨[⟨0, 1, [0], []⟩], 0, 0, [0], 2, 2⟩
        ⟨1, 0, 1, [1], [9]⟩).1.client_ids.length ≤ 2) := by
  have hnp : (handle_new_connection_id_frame ⟨[⟨0, 1, [0], []⟩], 0, 0, [0], 2, 2⟩
      ⟨1, 0, 1, [1], [9]⟩).2.2 ≠ some NGX_QUIC_ERR_PROTOCOL_VIOLATION := by
    intro h
    rw [show (handle_new_connection_id_frame ⟨[⟨0, 1, [0], []⟩], 0, 0, [0], 2, 2⟩
      ⟨1, 0, 1, [1], [9]⟩).2.2 = none from rfl] at h
    cases h
  exact ⟨hnp,
    (handle_new_conn_id_limit_spec ⟨[⟨0, 1, [0], []⟩], 0, 0, [0], 2, 2⟩
      ⟨1, 0, 1, [1], [9]⟩ hnp).2⟩

/-! ### ACK frame processing (`ngx_quic_handle_ack_frame_range`
lines 3118-3197, `ngx_quic_drop_ack_ranges` lines 2828-2883,
`ngx_quic_handle_stream_ack` lines 3274-3303) -/

lemma arl_fold_no_match (mtu idle now mn mx : ℕ) :
    ∀ (l : List SentFrame) (acc : ArlAcc),
      (∀ f ∈ l, ¬ (mn ≤ f.pnum ∧ f.pnum ≤ mx)) →
      l.foldl (arl_step mtu idle now mn mx) acc =
        { acc with kept := l.reverse ++ acc.kept }
  | [], acc, _ => by simp
  | f :: l, acc, h => by
    rw [List.foldl_cons]
    have hf : ¬ (mn ≤ f.pnum ∧ f.pnum ≤ mx) := h f (List.mem_cons_self f l)
    have hstep : arl_step mtu idle now mn mx acc f =
        { acc with kept := f :: acc.kept } := by
      unfold arl_step
      rw [if_neg hf]
    rw [hstep, arl_fold_no_match mtu idle now mn mx l _
      (fun g hg => h g (List.mem_cons_of_mem f hg))]
    simp

/-- Claim C9.  For an ACK range `[mn, mx]` under which no sent frame falls:
if `mx` is at least `ctx->pnum` (acknowledging a PN never sent) the handler
fails and the error slot is set to `PROTOCOL_VIOLATION` with triggering
frame type ACK; if `mx` is below `ctx->pnum` the range is treated as a
duplicate or non-ack-eliciting acknowledgment — the handler succeeds and
the state (in particular the sent queue) is unchanged. -/
theorem handle_ack_frame_range_no_match (mtu idle now : ℕ)
    (st : AckRecvState) (mn mx : ℕ)
    (h : ∀ f ∈ st.sent, ¬ (mn ≤ f.pnum ∧ f.pnum ≤ mx)) :
    (st.pnum ≤ mx →
      handle_ack_frame_range mtu idle now st mn mx =
        (st, some (NGX_QUIC_ERR_PROTOCOL_VIOLATION, NGX_QUIC_FT_ACK), none))
    ∧ (mx < st.pnum →
      handle_ack_frame_range mtu idle now st mn mx = (st, none, none)) := by
  have hrev : ∀ f ∈ st.sent.reverse, ¬ (mn ≤ f.pnum ∧ f.pnum ≤ mx) := by
    intro f hf
    exact h f (List.mem_reverse.mp hf)
  have hfold := arl_fold_no_match mtu idle now mn mx st.sent.reverse
    ⟨st.cg, st.streams, st.acks, false, 0, none, []⟩ hrev
  constructor
  · intro hge
    unfold handle_ack_frame_range
    dsimp only
    rw [hfold]
    dsimp only
    rw [if_neg (by simp), if_neg (by omega)]
  · intro hlt
    unfold handle_ack_frame_range
    dsimp only
    rw [hfold]
    dsimp only
    rw [if_neg (by simp), if_pos hlt]

/-- Witness for `handle_ack_frame_range_no_match` at a concrete input. -/
theorem handle_ack_frame_range_no_match_witness :
    (∀ f ∈ ([⟨1, 100, 3, .otherKind⟩] : List SentFrame),
      ¬ ((5 : ℕ) ≤ f.pnum ∧ f.pnum ≤ 9))
    ∧ handle_ack_frame_range 1200 30000 50
        ⟨[⟨1, 100, 3, .otherKind⟩], 4, ⟨none, 0, [], none⟩, ⟨0, 14720, 5, 0⟩, [], 1⟩
        5 9 =
      (⟨[⟨1, 100, 3, .otherKind⟩], 4, ⟨none, 0, [], none⟩, ⟨0, 14720, 5, 0⟩, [], 1⟩,
        some (NGX_QUIC_ERR_PROTOCOL_VIOLATION, NGX_QUIC_FT_ACK), none) := by
  have h : ∀ f ∈ ([⟨1, 100, 3, .otherKind⟩] : List SentFrame),
      ¬ ((5 : ℕ) ≤ f.pnum ∧ f.pnum ≤ 9) := by
    intro f hf
    rcases List.mem_singleton.mp hf with rfl
    norm_num
  exact ⟨h, (handle_ack_frame_range_no_match 1200 30000 50
    ⟨[⟨1, 100, 3, .otherKind⟩], 4, ⟨none, 0, [], none⟩, ⟨0, 14720, 5, 0⟩, [], 1⟩
    5 9 h).1 (by norm_num)⟩

/-! ### ACK accumulator (`ngx_quic_ack_packet` lines 2571-2803,
`ngx_quic_send_ack_range` lines 2806-2825, `ngx_quic_send_ack`
lines 2886-2935).  `NGX_QUIC_MAX_RANGES` lives in the missing header (the
spec gives an implementation bound, e.g. 32); it is carried here as the
explicit parameter `maxRanges`. -/

lemma smallest_tracked_le : ∀ (s : ℕ) (rs : List (ℕ × ℕ)),
    smallest_tracked s rs ≤ s
  | _, [] => le_refl _
  | s, (g, r) :: rest => by
    unfold smallest_tracked
    exact le_trans (smallest_tracked_le _ rest) (by omega)

lemma ack_find_too_old (pn : ℕ) : ∀ (s : ℕ) (rs : List (ℕ × ℕ)),
    wfFrom s rs → pn + 1 < smallest_tracked s rs →
    ack_find true pn s rs = .tooOld
  | s, [], _, h => by
    unfold smallest_tracked at h
    unfold ack_find
    rw [if_neg (by omega), if_pos rfl]
  | s, (g, r) :: rest, hwf, h => by
    unfold smallest_tracked at h
    unfold wfFrom at hwf
    have hst := smallest_tracked_le (s - g - 2 - r) rest
    unfold ack_find
    rw [if_neg (by omega), if_neg (by omega),
      ack_find_too_old pn (s - g - 2 - r) rest hwf.2 h]

/-- Claim C1 (the code at the failing input).  With a full range table and
an ack-eliciting packet whose PN is older than all tracked ranges,
`ngx_quic_ack_packet` hands the PN to `ngx_quic_send_ack_range`: the
degenerate single-PN ACK frame (largest = pn, first_range = 0, no extra
ranges) is allocated and filled — but never passed to
`ngx_quic_queue_frame`, so nothing is queued for transmission to the peer;
the PN is also not recorded in the table.  The claim (and the spec) says
the frame is emitted, i.e. queued; the code builds it and leaks it. -/
theorem ack_packet_old_pn_builds_but_never_queues
    (maxRanges : ℕ) (level_app : Bool) (exponent now recvTime : ℕ)
    (a : AckCtx) (pn base : ℕ)
    (hL : a.largest = some base)
    (hwf : a.first ≤ base ∧ wfFrom (base - a.first) a.ranges)
    (hfull : a.ranges.length = maxRanges)
    (hold : pn + 1 < smallest_tracked (base - a.first) a.ranges) :
    (ack_packet maxRanges level_app exponent now recvTime a pn true).queued = []
    ∧ (ack_packet maxRanges level_app exponent now recvTime a pn true).built_unqueued
        = some { largest := pn, delay := 0, first_range := 0, ranges := [] }
    ∧ (ack_packet maxRanges level_app exponent now recvTime a pn true).ctx.largest
        = a.largest
    ∧ (ack_packet maxRanges level_app exponent now recvTime a pn true).ctx.first
        = a.first
    ∧ (ack_packet maxRanges level_app exponent now recvTime a pn true).ctx.ranges
        = a.ranges := by
  obtain ⟨hw1, hw2⟩ := hwf
  have hs := smallest_tracked_le (base - a.first) a.ranges
  have hpb : pn < base := by omega
  have hdec : decide (a.ranges.length = maxRanges) = true := by
    simp [hfull]
  unfold ack_packet
  rw [hL]
  dsimp only
  simp only [reduceIte]
  rw [if_neg (show ¬ pn = base by omega)]
  rw [if_neg (show ¬ base < pn by omega)]
  rw [if_neg (show ¬ base - a.first ≤ pn by omega)]
  rw [hdec]
  rw [ack_find_too_old pn (base - a.first) a.ranges hw2 hold]
  exact ⟨rfl, rfl, rfl, rfl, rfl⟩

/-- Witness for `ack_packet_old_pn_builds_but_never_queues` at a concrete
input: table of capacity 1 holding PNs {10} ∪ {6,7} (largest 10, first
block [10,10], one range), arrival of old PN 2. -/
theorem ack_packet_old_pn_witness :
    (ack_packet 1 false 0 0 0 ⟨some 10, 0, [(1, 1)], some 10, 1, 0, 0⟩ 2
      true).queued = []
    ∧ (ack_packet 1 false 0 0 0 ⟨some 10, 0, [(1, 1)], some 10, 1, 0, 0⟩ 2
        true).built_unqueued =
      some { largest := 2, delay := 0, first_range := 0, ranges := [] } := by
  have h := ack_packet_old_pn_builds_but_never_queues 1 false 0 0 0
    ⟨some 10, 0, [(1, 1)], some 10, 1, 0, 0⟩ 2 10 rfl
    ⟨by norm_num, by simp [wfFrom]⟩ rfl
    (by simp [smallest_tracked])
  exact ⟨h.1, h.2.1⟩

/-! ### Order-independence of the ACK accumulator (claim C6).  The pure
accumulator core (`largest_range`, `first_range`, gap/range table) of
`ngx_quic_ack_packet` is related to the full model, shown to implement
canonical finite-set insertion, and canonical states are proved unique. -/

lemma setFrom_cons (s g r : ℕ) (rest : List (ℕ × ℕ)) :
    setFrom s ((g, r) :: rest) =
      Finset.Icc (s - g - 2 - r) (s - g - 2) ∪ setFrom (s - g - 2 - r) rest :=
  rfl

lemma ack_find_false_ne_tooOld (pn : ℕ) : ∀ (s : ℕ) (rs : List (ℕ × ℕ)),
    ack_find false pn s rs ≠ .tooOld
  | s, [] => by
    unfold ack_find
    split
    · simp
    · simp
  | s, (g, r) :: rest => by
    unfold ack_find
    dsimp only
    split
    · split
      · simp
      · split
        · simp
        · split <;> simp
    · split
      · simp
      · cases hin : ack_find false pn (s - g - 2 - r) rest with
        | found rs2 grow ins => simp
        | dup => simp
        | tooOld => exact absurd hin (ack_find_false_ne_tooOld pn _ rest)

lemma ack_find_true_cases (pn : ℕ) : ∀ (s : ℕ) (rs : List (ℕ × ℕ)),
    ack_find true pn s rs = ack_find false pn s rs ∨
      ack_find true pn s rs = .tooOld
  | s, [] => by
    unfold ack_find
    split
    · exact Or.inl rfl
    · exact Or.inr (by simp)
  | s, (g, r) :: rest => by
    unfold ack_find
    dsimp only
    split
    · exact Or.inl rfl
    · split
      · exact Or.inl rfl
      · rcases ack_find_true_cases pn (s - g - 2 - r) rest with h | h
        · rw [h]
          exact Or.inl rfl
        · rw [h]
          exact Or.inr rfl

lemma ack_find_true_eq (pn s : ℕ) (rs : List (ℕ × ℕ))
    (h : ack_find true pn s rs ≠ .tooOld) :
    ack_find true pn s rs = ack_find false pn s rs := by
  rcases ack_find_true_cases pn s rs with h2 | h2
  · exact h2
  · exact absurd h2 h

lemma mem_setFrom_le (x : ℕ) : ∀ (s : ℕ) (rs : List (ℕ × ℕ)),
    wfFrom s rs → x ∈ setFrom s rs → x + 2 ≤ s
  | s, [], _, hx => by
    unfold setFrom at hx
    simp at hx
  | s, (g, r) :: rest, hwf, hx => by
    unfold setFrom at hx
    unfold wfFrom at hwf
    rcases Finset.mem_union.mp hx with hx | hx
    · rw [Finset.mem_Icc] at hx
      omega
    · have := mem_setFrom_le x _ rest hwf.2 hx
      omega

lemma head_mem_setFrom (s g r : ℕ) (rest : List (ℕ × ℕ))
    (hwf : wfFrom s ((g, r) :: rest)) :
    s - g - 2 ∈ setFrom s ((g, r) :: rest) := by
  unfold setFrom
  unfold wfFrom at hwf
  exact Finset.mem_union_left _ (Finset.mem_Icc.mpr ⟨by omega, le_refl _⟩)

lemma ack_find_spec (pn : ℕ) : ∀ (s : ℕ) (rs : List (ℕ × ℕ)),
    wfFrom s rs → pn < s →
    (ack_find false pn s rs = .dup → pn ∈ setFrom s rs) ∧
    (∀ rs2 grow ins, ack_find false pn s rs = .found rs2 grow ins →
      grow ≤ s ∧ wfFrom (s - grow) rs2 ∧
      ∀ L, s ≤ L →
        Finset.Icc (s - grow) L ∪ setFrom (s - grow) rs2 =
          insert pn (Finset.Icc s L ∪ setFrom s rs))
  | s, [] => by
    intro _ hpn
    constructor
    · intro hd
      unfold ack_find at hd
      split at hd <;> simp at hd
    · intro rs2 grow ins hf
      unfold ack_find at hf
      split at hf
      · rename_i hc
        cases hf
        refine ⟨by omega, trivial, ?_⟩
        intro L hL
        simp only [setFrom]
        ext x
        simp [Finset.mem_Icc]
        omega
      · rename_i hc
        simp only [Bool.false_eq_true, if_false] at hf
        cases hf
        refine ⟨by omega, ⟨by omega, trivial⟩, ?_⟩
        intro L hL
        simp only [setFrom]
        ext x
        simp [Finset.mem_Icc]
        omega
  | s, (g, r) :: rest => by
    intro hwf hpn
    unfold wfFrom at hwf
    obtain ⟨hg, hrest⟩ := hwf
    unfold ack_find
    dsimp only
    by_cases h1 : s - 1 - g ≤ pn ∧ pn ≤ s - 1
    · rw [if_pos h1]
      by_cases h2 : s - 1 - g = s - 1
      · rw [if_pos h2]
        have hg0 : g = 0 := by omega
        subst hg0
        constructor
        · intro hd
          simp at hd
        · intro rs2 grow ins hf
          cases hf
          have hpn1 : pn = s - 1 := by omega
          refine ⟨by omega, ?_, ?_⟩
          · have he : s - (r + 2) = s - 0 - 2 - r := by omega
            rw [he]
            exact hrest
          · intro L hL
            subst hpn1
            have he : s - (r + 2) = s - 2 - r := by omega
            have he0 : s - 0 - 2 - r = s - 2 - r := by omega
            rw [he, setFrom_cons, he0]
            ext x
            by_cases hx : x ∈ setFrom (s - 2 - r) rest <;>
              simp [hx, Finset.mem_Icc] <;> omega
      · rw [if_neg h2]
        by_cases h3 : pn = s - 1 - g
        · rw [if_pos h3]
          constructor
          · intro hd
            simp at hd
          · intro rs2 grow ins hf
            cases hf
            refine ⟨by omega, ?_, ?_⟩
            · have hs0 : s - 0 = s := by omega
              rw [hs0]
              unfold wfFrom
              refine ⟨by omega, ?_⟩
              have he : s - (g - 1) - 2 - (r + 1) = s - g - 2 - r := by omega
              rw [he]
              exact hrest
            · intro L hL
              have hs0 : s - 0 = s := by omega
              rw [hs0]
              unfold setFrom
              have he : s - (g - 1) - 2 - (r + 1) = s - g - 2 - r := by omega
              have he2 : s - (g - 1) - 2 = s - g - 1 := by omega
              rw [he, he2]
              ext x
              by_cases hx : x ∈ setFrom (s - g - 2 - r) rest <;>
                simp [hx, Finset.mem_Icc] <;> omega
        · rw [if_neg h3]
          by_cases h4 : pn = s - 1
          · rw [if_pos h4]
            constructor
            · intro hd
              simp at hd
            · intro rs2 grow ins hf
              cases hf
              refine ⟨by omega, ?_, ?_⟩
              · unfold wfFrom
                refine ⟨by omega, ?_⟩
                have he : s - 1 - (g - 1) - 2 - r = s - g - 2 - r := by omega
                rw [he]
                exact hrest
              · intro L hL
                unfold setFrom
                have he : s - 1 - (g - 1) - 2 - r = s - g - 2 - r := by omega
                have he2 : s - 1 - (g - 1) - 2 = s - g - 2 := by omega
                rw [he, he2]
                ext x
                by_cases hx : x ∈ setFrom (s - g - 2 - r) rest <;>
                  simp [hx, Finset.mem_Icc] <;> omega
          · rw [if_neg h4]
            constructor
            · intro hd
              simp at hd
            · intro rs2 grow ins hf
              cases hf
              refine ⟨by omega, ?_, ?_⟩
              · have hs0 : s - 0 = s := by omega
                rw [hs0]
                simp only [wfFrom]
                refine ⟨by omega, by omega, ?_⟩
                have he : s - (s - 1 - pn - 1) - 2 - 0 - (pn - (s - 1 - g) - 1)
                    - 2 - r = s - g - 2 - r := by omega
                rw [he]
                exact hrest
              · intro L hL
                have hs0 : s - 0 = s := by omega
                rw [hs0]
                simp only [setFrom]
                have he : s - (s - 1 - pn - 1) - 2 - 0 - (pn - (s - 1 - g) - 1)
                    - 2 - r = s - g - 2 - r := by omega
                rw [he]
                ext x
                by_cases hx : x ∈ setFrom (s - g - 2 - r) rest <;>
                  simp [hx, Finset.mem_Icc] <;> omega
    · rw [if_neg h1]
      by_cases h5 : s - g - 2 - r ≤ pn ∧ pn ≤ s - g - 2
      · rw [if_pos h5]
        constructor
        · intro _
          unfold setFrom
          exact Finset.mem_union_left _ (Finset.mem_Icc.mpr ⟨h5.1, h5.2⟩)
        · intro rs2 grow ins hf
          simp at hf
      · rw [if_neg h5]
        have hplo : pn < s - g - 2 - r := by omega
        have IH := ack_find_spec pn (s - g - 2 - r) rest hrest hplo
        constructor
        · intro hd
          cases hin : ack_find false pn (s - g - 2 - r) rest with
          | found rs2 grow ins =>
            rw [hin] at hd
            simp at hd
          | tooOld => exact absurd hin (ack_find_false_ne_tooOld pn _ rest)
          | dup =>
            unfold setFrom
            exact Finset.mem_union_right _ (IH.1 hin)
        · intro rs2 grow ins hf
          cases hin : ack_find false pn (s - g - 2 - r) rest with
          | dup =>
            rw [hin] at hf
            simp at hf
          | tooOld => exact absurd hin (ack_find_false_ne_tooOld pn _ rest)
          | found rs1 grow1 ins1 =>
            rw [hin] at hf
            cases hf
            obtain ⟨hg1, hw1, hset⟩ := IH.2 _ _ _ hin
            refine ⟨by omega, ?_, ?_⟩
            · have hs0 : s - 0 = s := by omega
              rw [hs0]
              unfold wfFrom
              refine ⟨by omega, ?_⟩
              have he : s - g - 2 - (r + grow1) = s - g - 2 - r - grow1 := by
                omega
              rw [he]
              exact hw1
            · intro L hL
              have hs0 : s - 0 = s := by omega
              rw [hs0]
              unfold setFrom
              have he : s - g - 2 - (r + grow1) = s - g - 2 - r - grow1 := by
                omega
              rw [he]
              have hs2 := hset (s - g - 2) (by omega)
              rw [hs2]
              apply Finset.union_insert

lemma ack_core_insert_spec (a : AckCore) (pn : ℕ) (hwf : ackWf a) :
    ackWf (ack_core_insert a pn) ∧
      ackSet (ack_core_insert a pn) = insert pn (ackSet a) := by
  obtain ⟨L0, f0, rs0⟩ := a
  cases L0 with
  | none =>
    obtain ⟨hf0, hr0⟩ := hwf
    subst hf0
    subst hr0
    constructor
    · exact ⟨Nat.zero_le _, trivial⟩
    · ext x
      simp [ack_core_insert, ackSet, setFrom, Finset.mem_Icc]
  | some base =>
    obtain ⟨hfb, hrest⟩ := hwf
    replace hfb : f0 ≤ base := hfb
    replace hrest : wfFrom (base - f0) rs0 := hrest
    unfold ack_core_insert
    dsimp only
    by_cases hpb : pn = base
    · rw [if_pos hpb]
      subst hpb
      constructor
      · exact ⟨hfb, hrest⟩
      · show Finset.Icc (pn - f0) pn ∪ setFrom (pn - f0) rs0 =
          insert pn (Finset.Icc (pn - f0) pn ∪ setFrom (pn - f0) rs0)
        have hmem : pn ∈ Finset.Icc (pn - f0) pn ∪ setFrom (pn - f0) rs0 :=
          Finset.mem_union_left _ (Finset.mem_Icc.mpr ⟨by omega, le_refl _⟩)
        exact (Finset.insert_eq_self.mpr hmem).symm
    · rw [if_neg hpb]
      by_cases hlt : base < pn
      · rw [if_pos hlt]
        by_cases hadj : pn - base = 1
        · rw [if_pos hadj]
          constructor
          · show f0 + 1 ≤ pn ∧ wfFrom (pn - (f0 + 1)) rs0
            refine ⟨by omega, ?_⟩
            have he : pn - (f0 + 1) = base - f0 := by omega
            rw [he]
            exact hrest
          · show Finset.Icc (pn - (f0 + 1)) pn ∪ setFrom (pn - (f0 + 1)) rs0 =
              insert pn (Finset.Icc (base - f0) base ∪ setFrom (base - f0) rs0)
            have he : pn - (f0 + 1) = base - f0 := by omega
            rw [he]
            ext x
            by_cases hx : x ∈ setFrom (base - f0) rs0 <;>
              simp [hx, Finset.mem_Icc] <;> omega
        · rw [if_neg hadj]
          constructor
          · show 0 ≤ pn ∧ wfFrom (pn - 0) ((pn - base - 2, f0) :: rs0)
            refine ⟨Nat.zero_le _, ?_⟩
            have hs0 : pn - 0 = pn := by omega
            rw [hs0]
            unfold wfFrom
            refine ⟨by omega, ?_⟩
            have he : pn - (pn - base - 2) - 2 - f0 = base - f0 := by omega
            rw [he]
            exact hrest
          · show Finset.Icc (pn - 0) pn ∪
                setFrom (pn - 0) ((pn - base - 2, f0) :: rs0) =
              insert pn (Finset.Icc (base - f0) base ∪ setFrom (base - f0) rs0)
            have hs0 : pn - 0 = pn := by omega
            rw [hs0, setFrom_cons]
            have he : pn - (pn - base - 2) - 2 - f0 = base - f0 := by omega
            have he2 : pn - (pn - base - 2) - 2 = base := by omega
            rw [he, he2]
            ext x
            by_cases hx : x ∈ setFrom (base - f0) rs0 <;>
              simp [hx, Finset.mem_Icc] <;> omega
      · rw [if_neg hlt]
        by_cases hfst : base - f0 ≤ pn
        · rw [if_pos hfst]
          constructor
          · exact ⟨hfb, hrest⟩
          · show Finset.Icc (base - f0) base ∪ setFrom (base - f0) rs0 =
              insert pn (Finset.Icc (base - f0) base ∪ setFrom (base - f0) rs0)
            have hmem : pn ∈ Finset.Icc (base - f0) base ∪
                setFrom (base - f0) rs0 :=
              Finset.mem_union_left _ (Finset.mem_Icc.mpr ⟨hfst, by omega⟩)
            exact (Finset.insert_eq_self.mpr hmem).symm
        · rw [if_neg hfst]
          have hplt : pn < base - f0 := by omega
          have hspec := ack_find_spec pn (base - f0) rs0 hrest hplt
          cases hin : ack_find false pn (base - f0) rs0 with
          | dup =>
            constructor
            · exact ⟨hfb, hrest⟩
            · show Finset.Icc (base - f0) base ∪ setFrom (base - f0) rs0 =
                insert pn (Finset.Icc (base - f0) base ∪ setFrom (base - f0) rs0)
              have hmem : pn ∈ Finset.Icc (base - f0) base ∪
                  setFrom (base - f0) rs0 :=
                Finset.mem_union_right _ (hspec.1 hin)
              exact (Finset.insert_eq_self.mpr hmem).symm
          | tooOld => exact absurd hin (ack_find_false_ne_tooOld pn _ rs0)
          | found rs1 grow1 ins1 =>
            obtain ⟨hg1, hw1, hset⟩ := hspec.2 rs1 grow1 ins1 hin
            constructor
            · show f0 + grow1 ≤ base ∧ wfFrom (base - (f0 + grow1)) rs1
              have hle : grow1 ≤ base - f0 := hg1
              refine ⟨by omega, ?_⟩
              have he : base - (f0 + grow1) = base - f0 - grow1 := by omega
              rw [he]
              exact hw1
            · show Finset.Icc (base - (f0 + grow1)) base ∪
                  setFrom (base - (f0 + grow1)) rs1 =
                insert pn (Finset.Icc (base - f0) base ∪ setFrom (base - f0) rs0)
              have he : base - (f0 + grow1) = base - f0 - grow1 := by omega
              rw [he]
              exact hset base (by omega)

lemma setFrom_inj : ∀ (s : ℕ) (rs1 rs2 : List (ℕ × ℕ)),
    wfFrom s rs1 → wfFrom s rs2 → setFrom s rs1 = setFrom s rs2 → rs1 = rs2
  | _, [], [], _, _, _ => rfl
  | s, [], (g2, r2) :: t2, _, hw2, hset => by
    exfalso
    obtain ⟨hb2, ht2⟩ := hw2
    have hm : s - g2 - 2 ∈ setFrom s ((g2, r2) :: t2) := by
      rw [setFrom_cons]
      exact Finset.mem_union_left _ (Finset.mem_Icc.mpr ⟨by omega, le_refl _⟩)
    rw [← hset] at hm
    simp [setFrom] at hm
  | s, (g1, r1) :: t1, [], hw1, _, hset => by
    exfalso
    obtain ⟨hb1, ht1⟩ := hw1
    have hm : s - g1 - 2 ∈ setFrom s ((g1, r1) :: t1) := by
      rw [setFrom_cons]
      exact Finset.mem_union_left _ (Finset.mem_Icc.mpr ⟨by omega, le_refl _⟩)
    rw [hset] at hm
    simp [setFrom] at hm
  | s, (g1, r1) :: t1, (g2, r2) :: t2, hw1, hw2, hset => by
    obtain ⟨hb1, ht1⟩ := hw1
    obtain ⟨hb2, ht2⟩ := hw2
    have hm1 : s - g1 - 2 ∈ setFrom s ((g2, r2) :: t2) := by
      rw [← hset, setFrom_cons]
      exact Finset.mem_union_left _ (Finset.mem_Icc.mpr ⟨by omega, le_refl _⟩)
    have hm2 : s - g2 - 2 ∈ setFrom s ((g1, r1) :: t1) := by
      rw [hset, setFrom_cons]
      exact Finset.mem_union_left _ (Finset.mem_Icc.mpr ⟨by omega, le_refl _⟩)
    have hle1 : s - g1 - 2 ≤ s - g2 - 2 := by
      rw [setFrom_cons] at hm1
      rcases Finset.mem_union.mp hm1 with h | h
      · exact le_trans (Finset.mem_Icc.mp h).2 (by omega)
      · have := mem_setFrom_le _ _ t2 ht2 h
        omega
    have hle2 : s - g2 - 2 ≤ s - g1 - 2 := by
      rw [setFrom_cons] at hm2
      rcases Finset.mem_union.mp hm2 with h | h
      · exact le_trans (Finset.mem_Icc.mp h).2 (by omega)
      · have := mem_setFrom_le _ _ t1 ht1 h
        omega
    have hg : g1 = g2 := by omega
    subst hg
    have hr : r1 = r2 := by
      rcases Nat.lt_trichotomy r1 r2 with hlt | heq | hgt
      · exfalso
        have he : s - g1 - 2 - r1 - 1 ∈ setFrom s ((g1, r2) :: t2) := by
          rw [setFrom_cons]
          exact Finset.mem_union_left _ (Finset.mem_Icc.mpr ⟨by omega, by omega⟩)
        rw [← hset, setFrom_cons] at he
        rcases Finset.mem_union.mp he with h | h
        · rw [Finset.mem_Icc] at h
          omega
        · have := mem_setFrom_le _ _ t1 ht1 h
          omega
      · exact heq
      · exfalso
        have he : s - g1 - 2 - r2 - 1 ∈ setFrom s ((g1, r1) :: t1) := by
          rw [setFrom_cons]
          exact Finset.mem_union_left _ (Finset.mem_Icc.mpr ⟨by omega, by omega⟩)
        rw [hset, setFrom_cons] at he
        rcases Finset.mem_union.mp he with h | h
        · rw [Finset.mem_Icc] at h
          omega
        · have := mem_setFrom_le _ _ t2 ht2 h
          omega
    subst hr
    have htail : setFrom (s - g1 - 2 - r1) t1 = setFrom (s - g1 - 2 - r1) t2 := by
      ext y
      constructor
      · intro hy
        have hyb := mem_setFrom_le y _ t1 ht1 hy
        have hy1 : y ∈ setFrom s ((g1, r1) :: t1) := by
          rw [setFrom_cons]
          exact Finset.mem_union_right _ hy
        rw [hset, setFrom_cons] at hy1
        rcases Finset.mem_union.mp hy1 with h | h
        · rw [Finset.mem_Icc] at h
          omega
        · exact h
      · intro hy
        have hyb := mem_setFrom_le y _ t2 ht2 hy
        have hy1 : y ∈ setFrom s ((g1, r1) :: t2) := by
          rw [setFrom_cons]
          exact Finset.mem_union_right _ hy
        rw [← hset, setFrom_cons] at hy1
        rcases Finset.mem_union.mp hy1 with h | h
        · rw [Finset.mem_Icc] at h
          omega
        · exact h
    rw [setFrom_inj (s - g1 - 2 - r1) t1 t2 ht1 ht2 htail]

lemma ackSet_inj (a1 a2 : AckCore) (hw1 : ackWf a1) (hw2 : ackWf a2)
    (hset : ackSet a1 = ackSet a2) : a1 = a2 := by
  obtain ⟨L1, f1, rs1⟩ := a1
  obtain ⟨L2, f2, rs2⟩ := a2
  cases L1 with
  | none =>
    obtain ⟨hf1, hr1⟩ := hw1
    subst hf1
    subst hr1
    cases L2 with
    | none =>
      obtain ⟨hf2, hr2⟩ := hw2
      subst hf2
      subst hr2
      rfl
    | some N =>
      exfalso
      obtain ⟨hf2, hww2⟩ := hw2
      have hm : N ∈ ackSet ⟨some N, f2, rs2⟩ := by
        show N ∈ Finset.Icc (N - f2) N ∪ setFrom (N - f2) rs2
        exact Finset.mem_union_left _ (Finset.mem_Icc.mpr ⟨by omega, le_refl _⟩)
      rw [← hset] at hm
      simp [ackSet] at hm
  | some M =>
    cases L2 with
    | none =>
      exfalso
      obtain ⟨hf1, hww1⟩ := hw1
      obtain ⟨hf2, hr2⟩ := hw2
      subst hf2
      subst hr2
      have hm : M ∈ ackSet ⟨some M, f1, rs1⟩ := by
        show M ∈ Finset.Icc (M - f1) M ∪ setFrom (M - f1) rs1
        exact Finset.mem_union_left _ (Finset.mem_Icc.mpr ⟨by omega, le_refl _⟩)
      rw [hset] at hm
      simp [ackSet] at hm
    | some N =>
      obtain ⟨hf1, hww1⟩ := hw1
      obtain ⟨hf2, hww2⟩ := hw2
      replace hf1 : f1 ≤ M := hf1
      replace hww1 : wfFrom (M - f1) rs1 := hww1
      replace hf2 : f2 ≤ N := hf2
      replace hww2 : wfFrom (N - f2) rs2 := hww2
      replace hset : Finset.Icc (M - f1) M ∪ setFrom (M - f1) rs1 =
          Finset.Icc (N - f2) N ∪ setFrom (N - f2) rs2 := hset
      have hm1 : M ∈ Finset.Icc (N - f2) N ∪ setFrom (N - f2) rs2 := by
        rw [← hset]
        exact Finset.mem_union_left _ (Finset.mem_Icc.mpr ⟨by omega, le_refl _⟩)
      have hm2 : N ∈ Finset.Icc (M - f1) M ∪ setFrom (M - f1) rs1 := by
        rw [hset]
        exact Finset.mem_union_left _ (Finset.mem_Icc.mpr ⟨by omega, le_refl _⟩)
      have hMN : M = N := by
        have h1 : M ≤ N := by
          rcases Finset.mem_union.mp hm1 with h | h
          · exact (Finset.mem_Icc.mp h).2
          · have := mem_setFrom_le _ _ rs2 hww2 h
            omega
        have h2 : N ≤ M := by
          rcases Finset.mem_union.mp hm2 with h | h
          · exact (Finset.mem_Icc.mp h).2
          · have := mem_setFrom_le _ _ rs1 hww1 h
            omega
        omega
      subst hMN
      have hf : f1 = f2 := by
        rcases Nat.lt_trichotomy f1 f2 with hlt | heq | hgt
        · exfalso
          have he : M - f1 - 1 ∈ Finset.Icc (M - f2) M ∪ setFrom (M - f2) rs2 :=
            Finset.mem_union_left _ (Finset.mem_Icc.mpr ⟨by omega, by omega⟩)
          rw [← hset] at he
          rcases Finset.mem_union.mp he with h | h
          · rw [Finset.mem_Icc] at h
            omega
          · have := mem_setFrom_le _ _ rs1 hww1 h
            omega
        · exact heq
        · exfalso
          have he : M - f2 - 1 ∈ Finset.Icc (M - f1) M ∪ setFrom (M - f1) rs1 :=
            Finset.mem_union_left _ (Finset.mem_Icc.mpr ⟨by omega, by omega⟩)
          rw [hset] at he
          rcases Finset.mem_union.mp he with h | h
          · rw [Finset.mem_Icc] at h
            omega
          · have := mem_setFrom_le _ _ rs2 hww2 h
            omega
      subst hf
      have htail : setFrom (M - f1) rs1 = setFrom (M - f1) rs2 := by
        ext y
        constructor
        · intro hy
          have hyb := mem_setFrom_le y _ rs1 hww1 hy
          have hy1 : y ∈ Finset.Icc (M - f1) M ∪ setFrom (M - f1) rs1 :=
            Finset.mem_union_right _ hy
          rw [hset] at hy1
          rcases Finset.mem_union.mp hy1 with h | h
          · rw [Finset.mem_Icc] at h
            omega
          · exact h
        · intro hy
          have hyb := mem_setFrom_le y _ rs2 hww2 hy
          have hy1 : y ∈ Finset.Icc (M - f1) M ∪ setFrom (M - f1) rs2 :=
            Finset.mem_union_right _ hy
          rw [← hset] at hy1
          rcases Finset.mem_union.mp hy1 with h | h
          · rw [Finset.mem_Icc] at h
            omega
          · exact h
      rw [setFrom_inj (M - f1) rs1 rs2 hww1 hww2 htail]

lemma ack_core_insert_mem (c : AckCore) (pn : ℕ) (hwf : ackWf c)
    (hm : pn ∈ ackSet c) : ack_core_insert c pn = c := by
  obtain ⟨hw2, hs2⟩ := ack_core_insert_spec c pn hwf
  apply ackSet_inj _ _ hw2 hwf
  rw [hs2]
  exact Finset.insert_eq_self.mpr hm

lemma mem_setFrom_dup (full : Bool) (pn : ℕ) : ∀ (s : ℕ) (rs : List (ℕ × ℕ)),
    wfFrom s rs → pn ∈ setFrom s rs → ack_find full pn s rs = .dup
  | s, [], _, hm => by
    simp [setFrom] at hm
  | s, (g, r) :: rest, hwf, hm => by
    obtain ⟨hb, ht⟩ := hwf
    rw [setFrom_cons] at hm
    unfold ack_find
    dsimp only
    rcases Finset.mem_union.mp hm with h | h
    · rw [Finset.mem_Icc] at h
      rw [if_neg (show ¬(s - 1 - g ≤ pn ∧ pn ≤ s - 1) from by omega)]
      rw [if_pos (show s - g - 2 - r ≤ pn ∧ pn ≤ s - g - 2 from ⟨h.1, h.2⟩)]
    · have hb2 := mem_setFrom_le pn _ rest ht h
      rw [if_neg (show ¬(s - 1 - g ≤ pn ∧ pn ≤ s - 1) from by omega)]
      rw [if_neg (show ¬(s - g - 2 - r ≤ pn ∧ pn ≤ s - g - 2) from by omega)]
      rw [mem_setFrom_dup full pn (s - g - 2 - r) rest ht h]

lemma ack_packet_core_bridge (maxRanges : ℕ) (lapp : Bool)
    (exponent now recvTime : ℕ) (a0 : AckCtx) (pn : ℕ) (need_ack : Bool)
    (h : (ack_packet maxRanges lapp exponent now recvTime a0 pn need_ack).hit_cap
        = false) :
    core_of (ack_packet maxRanges lapp exponent now recvTime a0 pn need_ack).ctx
      = ack_core_insert (core_of a0) pn := by
  obtain ⟨L0, f0, rs0, pnd, sa, ads, lr⟩ := a0
  unfold ack_packet at h ⊢
  unfold core_of ack_core_insert
  cases need_ack <;>
    first
      | rw [if_pos (show (true : Bool) = true from rfl)] at h ⊢
      | rw [if_neg (show ¬((false : Bool) = true) from by simp)] at h ⊢
  all_goals (try dsimp only at h ⊢)
  all_goals cases L0
  all_goals (try dsimp only at h ⊢)
  all_goals (try rfl)
  all_goals rename_i base
  all_goals (try simp only [reduceIte] at h ⊢)
  all_goals (
    by_cases hpb : pn = base
    · rw [if_pos hpb] at h ⊢
      rw [if_pos hpb]
      try rfl
    · rw [if_neg hpb] at h ⊢
      rw [if_neg hpb]
      by_cases hlt : base < pn
      · rw [if_pos hlt] at h ⊢
        rw [if_pos hlt]
        by_cases hadj : pn - base = 1
        · rw [if_pos hadj] at h ⊢
          rw [if_pos hadj]
          try rfl
        · rw [if_neg hadj] at h ⊢
          rw [if_neg hadj]
          try dsimp only at h ⊢
          rw [h]
          try simp only [reduceIte]
          try rfl
      · rw [if_neg hlt] at h ⊢
        rw [if_neg hlt]
        repeat
          first
            | rw [if_pos (show (true : Bool) = true from rfl)] at h ⊢
            | rw [if_neg (show ¬((false : Bool) = true) from by simp)] at h ⊢
        try dsimp only at h ⊢
        by_cases hsm : base - f0 ≤ pn
        · rw [if_pos hsm] at h ⊢
          rw [if_pos hsm]
          try rfl
        · rw [if_neg hsm] at h ⊢
          rw [if_neg hsm]
          cases hfull : decide (rs0.length = maxRanges) with
          | false =>
            rw [hfull] at h
            cases hfind : ack_find false pn (base - f0) rs0 with
            | dup =>
              try rfl
            | tooOld => exact absurd hfind (ack_find_false_ne_tooOld pn _ rs0)
            | found rs grow ins =>
              rw [hfind] at h
              try dsimp only at h ⊢
              rw [if_neg (show ¬(ins = true ∧ false = true) from by simp)] at h ⊢
              try rfl
          | true =>
            rw [hfull] at h
            have hne : ack_find true pn (base - f0) rs0 ≠ .tooOld := by
              intro hx
              rw [hx] at h
              dsimp only at h
              exact absurd h (by simp)
            have hfalse := ack_find_true_eq pn (base - f0) rs0 hne
            cases hfind : ack_find true pn (base - f0) rs0 with
            | dup =>
              rw [hfind] at hfalse
              rw [← hfalse]
              try rfl
            | tooOld => exact absurd hfind hne
            | found rs grow ins =>
              rw [hfind] at h
              rw [hfind] at hfalse
              rw [← hfalse]
              try dsimp only at h ⊢
              cases ins with
              | true =>
                rw [if_pos (show (true = true) ∧ (true = true) from ⟨rfl, rfl⟩)]
                  at h
                dsimp only at h
                exact absurd h (by simp)
              | false =>
                rw [if_neg (show ¬((false = true) ∧ (true = true)) from by simp)]
                  at h ⊢
                try rfl)

lemma ack_packet_dup_no_cap (maxRanges : ℕ) (lapp : Bool)
    (exponent now recvTime : ℕ) (a0 : AckCtx) (pn : ℕ) (need_ack : Bool)
    (hwf : ackWf (core_of a0)) (hm : pn ∈ ackSet (core_of a0)) :
    (ack_packet maxRanges lapp exponent now recvTime a0 pn need_ack).hit_cap
      = false := by
  obtain ⟨L0, f0, rs0, pnd, sa, ads, lr⟩ := a0
  cases L0 with
  | none => exact absurd hm (by simp [ackSet, core_of])
  | some base =>
    obtain ⟨hfb, hrest⟩ := hwf
    replace hm : pn ∈ Finset.Icc (base - f0) base ∪ setFrom (base - f0) rs0 := hm
    replace hfb : f0 ≤ base := hfb
    replace hrest : wfFrom (base - f0) rs0 := hrest
    have hple : pn ≤ base := by
      rcases Finset.mem_union.mp hm with hx | hx
      · exact (Finset.mem_Icc.mp hx).2
      · have := mem_setFrom_le pn _ rs0 hrest hx
        omega
    unfold ack_packet
    cases need_ack <;>
      first
        | rw [if_pos (show (true : Bool) = true from rfl)]
        | rw [if_neg (show ¬((false : Bool) = true) from by simp)]
    all_goals try dsimp only
    all_goals by_cases hpb : pn = base
    all_goals try rw [if_pos hpb]
    all_goals try rfl
    all_goals rw [if_neg hpb]
    all_goals rw [if_neg (show ¬ base < pn from by omega)]
    all_goals
      repeat
        first
          | rw [if_pos (show (true : Bool) = true from rfl)]
          | rw [if_neg (show ¬((false : Bool) = true) from by simp)]
    all_goals try dsimp only
    all_goals by_cases hsm : base - f0 ≤ pn
    all_goals try rw [if_pos hsm]
    all_goals try rfl
    all_goals rw [if_neg hsm]
    all_goals
      have hmem2 : pn ∈ setFrom (base - f0) rs0 := by
        rcases Finset.mem_union.mp hm with hx | hx
        · rw [Finset.mem_Icc] at hx
          omega
        · exact hx
    all_goals rw [mem_setFrom_dup _ pn (base - f0) rs0 hrest hmem2]

lemma ack_packet_run_core (maxRanges : ℕ) (lapp : Bool)
    (exponent now recvTime : ℕ) : ∀ (l : List ℕ) (a : AckCtx),
    (ack_packet_run maxRanges lapp exponent now recvTime a l).2 = false →
    core_of (ack_packet_run maxRanges lapp exponent now recvTime a l).1
      = ack_core_run (core_of a) l
  | [], _, _ => rfl
  | pn :: l, a, h => by
    unfold ack_packet_run at h ⊢
    dsimp only at h ⊢
    rw [Bool.or_eq_false_iff] at h
    obtain ⟨hc, hr⟩ := h
    rw [ack_packet_run_core maxRanges lapp exponent now recvTime l _ hr]
    unfold ack_core_run
    rw [List.foldl_cons]
    rw [ack_packet_core_bridge maxRanges lapp exponent now recvTime a pn true hc]

lemma ack_core_run_wf_set : ∀ (l : List ℕ) (a : AckCore), ackWf a →
    ackWf (ack_core_run a l) ∧
      ackSet (ack_core_run a l) = ackSet a ∪ l.toFinset
  | [], a, hwf => by
    refine ⟨hwf, ?_⟩
    simp [ack_core_run]
  | pn :: l, a, hwf => by
    obtain ⟨hw1, hs1⟩ := ack_core_insert_spec a pn hwf
    obtain ⟨hw2, hs2⟩ := ack_core_run_wf_set l (ack_core_insert a pn) hw1
    refine ⟨hw2, ?_⟩
    show ackSet (ack_core_run (ack_core_insert a pn) l) =
      ackSet a ∪ (pn :: l).toFinset
    rw [hs2, hs1, List.toFinset_cons]
    ext x
    simp only [Finset.mem_union, Finset.mem_insert]
    tauto

/-- C6: applying the ACK accumulator update (`ngx_quic_ack_packet`) to the
packet numbers of a list in any permutation yields the same final
accumulator state - largest PN, first range length, and gap/range table -
provided neither run takes a capacity branch (`nranges == NGX_QUIC_MAX_RANGES`);
and a PN already represented in the accumulator is a no-op on that state
and never takes a capacity branch. -/
theorem ack_accumulator_perm (maxRanges : ℕ) (lapp : Bool)
    (exponent now recvTime : ℕ) (a : AckCtx) (l1 l2 : List ℕ)
    (hwf : ackWf (core_of a)) (hp : l1.Perm l2)
    (h1 : (ack_packet_run maxRanges lapp exponent now recvTime a l1).2 = false)
    (h2 : (ack_packet_run maxRanges lapp exponent now recvTime a l2).2 = false) :
    core_of (ack_packet_run maxRanges lapp exponent now recvTime a l1).1
      = core_of (ack_packet_run maxRanges lapp exponent now recvTime a l2).1 ∧
    ∀ pn need_ack, pn ∈ ackSet (core_of a) →
      (ack_packet maxRanges lapp exponent now recvTime a pn need_ack).hit_cap
          = false ∧
        core_of (ack_packet maxRanges lapp exponent now recvTime a pn
          need_ack).ctx = core_of a := by
  constructor
  · rw [ack_packet_run_core maxRanges lapp exponent now recvTime l1 a h1]
    rw [ack_packet_run_core maxRanges lapp exponent now recvTime l2 a h2]
    obtain ⟨hwa, hsa⟩ := ack_core_run_wf_set l1 (core_of a) hwf
    obtain ⟨hwb, hsb⟩ := ack_core_run_wf_set l2 (core_of a) hwf
    apply ackSet_inj _ _ hwa hwb
    rw [hsa, hsb, List.toFinset_eq_of_perm l1 l2 hp]
  · intro pn need_ack hm
    have hcap := ack_packet_dup_no_cap maxRanges lapp exponent now recvTime
      _ pn need_ack hwf hm
    refine ⟨hcap, ?_⟩
    rw [ack_packet_core_bridge maxRanges lapp exponent now recvTime _ pn
      need_ack hcap]
    exact ack_core_insert_mem (core_of _) pn hwf hm

theorem ack_accumulator_perm_witness :
    (core_of (ack_packet_run 8 false 0 0 0
        ⟨some 10, 1, [(1, 1)], none, 0, 0, 0⟩ [5, 1, 3]).1
      = core_of (ack_packet_run 8 false 0 0 0
        ⟨some 10, 1, [(1, 1)], none, 0, 0, 0⟩ [1, 3, 5]).1 ∧
    ∀ pn need_ack,
      pn ∈ ackSet (core_of ⟨some 10, 1, [(1, 1)], none, 0, 0, 0⟩) →
      (ack_packet 8 false 0 0 0 ⟨some 10, 1, [(1, 1)], none, 0, 0, 0⟩ pn
          need_ack).hit_cap = false ∧
        core_of (ack_packet 8 false 0 0 0 ⟨some 10, 1, [(1, 1)], none, 0, 0, 0⟩
          pn need_ack).ctx = core_of ⟨some 10, 1, [(1, 1)], none, 0, 0, 0⟩) ∧
    core_of (ack_packet_run 8 false 0 0 0
        ⟨some 10, 1, [(1, 1)], none, 0, 0, 0⟩ [5, 1, 3]).1
      = ⟨some 10, 1, [(1, 1), (0, 0), (0, 0)]⟩ :=
  ⟨ack_accumulator_perm 8 false 0 0 0 ⟨some 10, 1, [(1, 1)], none, 0, 0, 0⟩
    [5, 1, 3] [1, 3, 5] ⟨by decide, by decide, trivial⟩ (by decide) (by decide)
    (by decide), by decide⟩

end NgxQuic
